import Mathlib

/-!
Verification of the skybridge path-generation worker.

This file gives a shallow embedding, in Lean 4, of the background
path-generation engine of the repository (the web-worker portion of
src/BioluminescenceScene.ts): per-instance direction decoding, hole-cell
registration, the visibility classifier, the capacity-limited A* search with
its binary heap and stamp-invalidated scratch state, segment merging for
two-sided loops, the per-vertex usage table, the placement loop, and the
message protocol with its cancellation token.

Modelling conventions:
* JavaScript numbers are modelled as exact rationals; machine-float
  rounding is outside the embedding.
* The collision oracle (segmentHitsBuildings) and the edge-cost /
  heuristic computations are taken as function-valued parameters
  (`CostModel`): the graph-structural and protocol-level properties proved
  here hold for every oracle and every cost assignment, hence in
  particular for the geometric one in the source.
* Mutable typed arrays are modelled as total functions `Nat -> _` updated
  pointwise; the binary heap is an `Array` whose length is the heap size.
* `Math.random()` is modelled as a stream `rand : Nat -> Rat` of values in
  [0,1), consumed at an explicitly threaded cursor.
* Unbounded `while` loops are given explicit fuel; termination statements
  are made by proving a concrete fuel bound suffices.
-/

/- Batteries marks the rational-number operations irreducible, which blocks
evaluation of the executable definitions below by `decide`; restore the
default reducibility so concrete program runs reduce. -/
set_option allowUnsafeReducibility true
attribute [semireducible] Rat.add Rat.sub Rat.mul Rat.div Rat.inv Rat.ofScientific

/-- Pointwise update of a function-modelled array (`arr[i] = v`). -/
def updFn {α : Type} (f : ℕ → α) (i : ℕ) (v : α) : ℕ → α :=
  fun j => if j = i then v else f j

theorem updFn_same {α : Type} (f : ℕ → α) (i : ℕ) (v : α) : updFn f i v i = v := by
  simp [updFn]

theorem updFn_other {α : Type} (f : ℕ → α) (i j : ℕ) (v : α) (h : j ≠ i) :
    updFn f i v j = f j := by
  simp [updFn, h]

/-! ## Build-parameter decoding (source lines 2636-2638, 2696-2706, 2716, 2745-2751) -/

/-- Source line 2638:
`maxPathsPerVertex = Math.min(0xffff, Math.max(1, Math.round(message.maxPathsPerVertex)))`.
JavaScript `Math.round x` is `⌊x + 1/2⌋`. -/
def clampMaxPathsPerVertex (raw : ℚ) : ℤ :=
  min 65535 (max 1 ⌊raw + 1/2⌋)

/-- Source line 2699: `useHoleCenters = Math.abs(voxelSizeXZ - step) < 1e-6`. -/
def useHoleCenters (voxelSizeXZ step : ℚ) : Bool :=
  |voxelSizeXZ - step| < 1/1000000

/-- Source lines 2745-2751: the instance direction decoded from packed block C;
entry `4*i+3` is the direction sign, magnitude below 0.5 marks the instance
absent (a hole cell). -/
def instanceDirectionOf (paramC : ℕ → ℚ) (i : ℕ) : ℤ :=
  if |paramC (4 * i + 3)| < 1/2 then 0
  else if 0 ≤ paramC (4 * i + 3) then 1 else -1

/-- Source line 2716: `perCell = twoSided ? 2 : 1`. -/
def perCellOf (twoSided : Bool) : ℕ := if twoSided then 2 else 1

/-- Source lines 2809-2816: a cell is registered as a hole cell when hole
centers are enabled, the cell count is positive, the cell's first instance
index is in range and that instance's direction is 0.  Only the instance at
index `cell * perCell` is examined. -/
def holeCellsOf (useHC : Bool) (cellCount perCell instanceCount : ℕ)
    (dir : ℕ → ℤ) : List ℕ :=
  if useHC ∧ 0 < cellCount then
    (List.range cellCount).filter
      (fun cell => cell * perCell < instanceCount && dir (cell * perCell) == 0)
  else []

/-- Source line 2817: `holeCenterCount = holeCells.length * vertexCountY`. -/
def holeCenterCountOf (holeCells : List ℕ) (vertexCountY : ℕ) : ℕ :=
  holeCells.length * vertexCountY

/-- Source lines 2706 and 2818: the total node count is the lattice vertex
count, extended by the hole-center nodes when registration ran (when it did
not, `holeCellsOf` is `[]`, so the addend is 0, matching the source where
`totalNodeCount` keeps its initial value). -/
def totalNodeCountOf (baseVertexCount : ℕ) (holeCells : List ℕ)
    (vertexCountY : ℕ) : ℕ :=
  baseVertexCount + holeCenterCountOf holeCells vertexCountY

/-! ## C10 -/

/-- C10: For every build message, the per-vertex usage cap actually enforced is
`min(65535, max(1, round(maxPathsPerVertex)))`; in particular a build message
with `maxPathsPerVertex` equal to zero, negative, or fractional still permits
at least one path through every node (cap at least 1), and the cap never
exceeds 65535. -/
theorem c10_vertex_cap_clamped :
    (∀ raw : ℚ, 1 ≤ clampMaxPathsPerVertex raw ∧ clampMaxPathsPerVertex raw ≤ 65535)
      ∧ clampMaxPathsPerVertex 0 = 1
      ∧ clampMaxPathsPerVertex (-7) = 1
      ∧ clampMaxPathsPerVertex (5/2) = 3
      ∧ clampMaxPathsPerVertex 100000 = 65535 := by
  refine ⟨fun raw => ⟨?_, ?_⟩, by decide, by decide, by decide, by decide⟩
  · exact le_min (by norm_num) (le_max_left 1 _)
  · exact min_le_left _ _

/-! ## C9 -/

/-- C9: Hole-center nodes are created only when the voxel horizontal size
equals the building-grid cell step to within 1e-6; for any build where this
does not hold, the graph contains no hole-center nodes and the total node
count equals the lattice vertex count `(countX+1)*(countY+1)*(countZ+1)`. -/
theorem c9_no_hole_centers_without_size_match
    (voxelSizeXZ step : ℚ) (countX countY countZ cellCount perCell instanceCount : ℕ)
    (dir : ℕ → ℤ)
    (h : ¬ |voxelSizeXZ - step| < 1/1000000) :
    useHoleCenters voxelSizeXZ step = false
      ∧ holeCellsOf (useHoleCenters voxelSizeXZ step) cellCount perCell instanceCount dir = []
      ∧ totalNodeCountOf ((countX + 1) * (countY + 1) * (countZ + 1))
          (holeCellsOf (useHoleCenters voxelSizeXZ step) cellCount perCell instanceCount dir)
          (countY + 1)
        = (countX + 1) * (countY + 1) * (countZ + 1) := by
  have hfalse : useHoleCenters voxelSizeXZ step = false := by
    simp only [useHoleCenters, decide_eq_false_iff_not]
    exact h
  refine ⟨hfalse, ?_, ?_⟩ <;>
    simp [hfalse, holeCellsOf, totalNodeCountOf, holeCenterCountOf]

/-- Witness for C9 at a concrete input: voxel size 1, step 2. -/
theorem c9_witness :
    ¬ |(1 : ℚ) - 2| < 1/1000000
      ∧ totalNodeCountOf ((2 + 1) * (1 + 1) * (3 + 1))
          (holeCellsOf (useHoleCenters 1 2) 6 1 6 (fun _ => 0)) (1 + 1)
        = (2 + 1) * (1 + 1) * (3 + 1) :=
  ⟨by norm_num,
   (c9_no_hole_centers_without_size_match 1 2 2 1 3 6 1 6 (fun _ => 0)
      (by norm_num)).2.2⟩

/-! ## C6 -/

/-- Packed block C for the C6 counterexample: two instances over one two-sided
cell; the top-side instance (index 0, direction entry 3) is absent, the
bottom-side instance (index 1, direction entry 7) is present with sign -1. -/
def c6ParamC : ℕ → ℚ := fun n => if n = 7 then -1 else 0

/-- C6 counterexample: in two-sided mode (`perCell = 2`) with hole centers
enabled, the cell whose top-side instance is absent is registered as a hole
cell (and therefore receives hole-center nodes) even though its bottom-side
instance is present — refuting the claim that a cell with a present
bottom-side instance receives no hole-center nodes. -/
theorem c6_counterexample :
    useHoleCenters 1 1 = true
      ∧ instanceDirectionOf c6ParamC 1 ≠ 0
      ∧ 0 ∈ holeCellsOf (useHoleCenters 1 1) 1 (perCellOf true) 2
          (instanceDirectionOf c6ParamC) := by
  refine ⟨by decide, by decide, ?_⟩
  decide

/-- C6 amended: a grid cell receives hole-center nodes (one per Y-level) if
and only if hole centers are enabled, the cell index is in range, the cell's
FIRST instance index (`cell * perCell`, the top-side instance in two-sided
mode) is within the instance count, and that single instance is absent
(direction 0).  The bottom-side instance of a two-sided cell is not examined. -/
theorem c6_hole_registration_iff
    (useHC : Bool) (cellCount perCell instanceCount : ℕ) (dir : ℕ → ℤ) (cell : ℕ) :
    cell ∈ holeCellsOf useHC cellCount perCell instanceCount dir ↔
      useHC = true ∧ cell < cellCount ∧ cell * perCell < instanceCount
        ∧ dir (cell * perCell) = 0 := by
  unfold holeCellsOf
  by_cases hu : useHC = true ∧ 0 < cellCount
  · simp only [if_pos hu, List.mem_filter, List.mem_range, Bool.and_eq_true,
      decide_eq_true_eq, beq_iff_eq]
    constructor
    · rintro ⟨hc, hi, hd⟩
      exact ⟨hu.1, hc, hi, hd⟩
    · rintro ⟨_, hc, hi, hd⟩
      exact ⟨hc, ⟨hi, hd⟩⟩
  · simp only [if_neg hu, List.not_mem_nil, false_iff]
    rintro ⟨h1, h2, _, _⟩
    exact hu ⟨h1, Nat.pos_of_ne_zero (by omega)⟩

/-! ## The search grid (source lines 2689-2714, 2841-2863) -/

/-- The immutable per-build grid data that the classifier and the A* search
consume.  `holeCells` is the registered hole-cell list (`holeCellsOf`); the
collision oracle and costs live in `CostModel` below. -/
structure SearchGrid where
  countX : ℕ
  countY : ℕ
  countZ : ℕ
  edgesOpenX : Bool
  edgesOpenZ : Bool
  gridX : ℕ
  gridZ : ℕ
  holeCells : List ℕ

def SearchGrid.vertexCountX (G : SearchGrid) : ℕ := G.countX + 1

def SearchGrid.vertexCountY (G : SearchGrid) : ℕ := G.countY + 1

def SearchGrid.vertexCountZ (G : SearchGrid) : ℕ := G.countZ + 1

/-- Source line 2842: `strideY = vertexCountX`. -/
def SearchGrid.strideY (G : SearchGrid) : ℕ := G.vertexCountX

/-- Source line 2843: `strideZ = vertexCountX * vertexCountY`. -/
def SearchGrid.strideZ (G : SearchGrid) : ℕ := G.vertexCountX * G.vertexCountY

def SearchGrid.totalVertices (G : SearchGrid) : ℕ :=
  G.vertexCountX * G.vertexCountY * G.vertexCountZ

/-- Source line 2704: hole-center node indices start right after the lattice. -/
def SearchGrid.holeCenterBaseIndex (G : SearchGrid) : ℕ := G.totalVertices

def SearchGrid.holeCenterCount (G : SearchGrid) : ℕ :=
  G.holeCells.length * G.vertexCountY

def SearchGrid.totalNodeCount (G : SearchGrid) : ℕ :=
  G.totalVertices + G.holeCenterCount

/-- Lattice index decomposition (source lines 3464-3466): `ix = idx % vertexCountX`. -/
def SearchGrid.ixOf (G : SearchGrid) (idx : ℕ) : ℕ := idx % G.vertexCountX

/-- `iy = floor(idx / strideY) % vertexCountY`. -/
def SearchGrid.iyOf (G : SearchGrid) (idx : ℕ) : ℕ := (idx / G.strideY) % G.vertexCountY

/-- `iz = floor(idx / strideZ)`. -/
def SearchGrid.izOf (G : SearchGrid) (idx : ℕ) : ℕ := idx / G.strideZ

/-- Source line 2702-2703 and 2814: `holeIndexByCell` maps a cell index to the
position of that cell in the registered hole-cell list (-1, here `none`, when
the cell is not a hole cell).  Registration pushes cells in ascending order,
so the stored index is the position of the first occurrence. -/
def SearchGrid.holeIndexByCell (G : SearchGrid) (cell : ℕ) : Option ℕ :=
  G.holeCells.findIdx? (fun c => c == cell)

/-- Source lines 2707-2711 (`isBoundaryEdge`): an edge crosses a sealed domain
boundary when the corresponding edges-open flag is false and either endpoint
lies on that extreme plane. -/
def SearchGrid.sealedEdge (G : SearchGrid) (ix nx iz nz : ℕ) : Bool :=
  (!G.edgesOpenX &&
    (ix == 0 || nx == 0 || ix == G.vertexCountX - 1 || nx == G.vertexCountX - 1)) ||
  (!G.edgesOpenZ &&
    (iz == 0 || nz == 0 || iz == G.vertexCountZ - 1 || nz == G.vertexCountZ - 1))

/-- Source lines 2845-2856: the 26-neighborhood offsets, in the construction
order of the source (dz outermost, then dy, then dx, skipping the origin). -/
def neighborOffsets : List (ℤ × ℤ × ℤ) :=
  [(-1, -1, -1), (0, -1, -1), (1, -1, -1),
   (-1, 0, -1), (0, 0, -1), (1, 0, -1),
   (-1, 1, -1), (0, 1, -1), (1, 1, -1),
   (-1, -1, 0), (0, -1, 0), (1, -1, 0),
   (-1, 0, 0), (1, 0, 0),
   (-1, 1, 0), (0, 1, 0), (1, 1, 0),
   (-1, -1, 1), (0, -1, 1), (1, -1, 1),
   (-1, 0, 1), (0, 0, 1), (1, 0, 1),
   (-1, 1, 1), (0, 1, 1), (1, 1, 1)]

/-- Source lines 2858-2863 (`cornerOffsets`): the four lattice corners of a
grid cell, in source order. -/
def cornerOffsets : List (ℕ × ℕ) := [(0, 0), (1, 0), (0, 1), (1, 1)]

/-- The four (cellDx, cellDz) pairs enumerated by the nested hole-adjacency
loops (cellDx outer, cellDz inner), flattened in iteration order. -/
def holeCellOffsets : List (ℕ × ℕ) := [(0, 0), (0, 1), (1, 0), (1, 1)]

/-- Whether a 26-neighborhood offset leaves the lattice bounds at node `idx`
(source line 3480 / 3709). -/
def latOutOfBounds (G : SearchGrid) (idx : ℕ) (d : ℤ × ℤ × ℤ) : Bool :=
  let nx : ℤ := (G.ixOf idx : ℤ) + d.1
  let ny : ℤ := (G.iyOf idx : ℤ) + d.2.1
  let nz : ℤ := (G.izOf idx : ℤ) + d.2.2
  nx < 0 || ny < 0 || nz < 0 || (G.vertexCountX : ℤ) ≤ nx
    || (G.vertexCountY : ℤ) ≤ ny || (G.vertexCountZ : ℤ) ≤ nz

/-- The in-bounds neighbour index reached from `idx` by offset `d`.  The
source computes it as `idx + delta` with `delta = dx + dy*strideY +
dz*strideZ`; for an in-bounds neighbour this equals the index assembled from
the neighbour coordinates, which is the form used here. -/
def latNeighborIndex (G : SearchGrid) (idx : ℕ) (d : ℤ × ℤ × ℤ) : ℕ :=
  ((G.ixOf idx : ℤ) + d.1).toNat
    + ((G.iyOf idx : ℤ) + d.2.1).toNat * G.strideY
    + ((G.izOf idx : ℤ) + d.2.2).toNat * G.strideZ

/-! ## Visibility classifier (source lines 3454-3556) -/

/-- One pass of the classifier over the remaining 26-neighborhood offsets,
carrying the `hasClear` / `hasBlocked` flags.  Mirrors source lines
3476-3513: an out-of-bounds neighbour is skipped (`continue`) without
touching either flag; a sealed-boundary edge sets `hasBlocked` and skips the
geometry test; otherwise the collision oracle decides which flag is set, and
the loop exits early once both flags hold. -/
def classifyNeighbors (G : SearchGrid) (oracle : ℕ → ℕ → Bool) (idx : ℕ) :
    List (ℤ × ℤ × ℤ) → Bool → Bool → Bool × Bool
  | [], c, b => (c, b)
  | d :: rest, c, b =>
    if latOutOfBounds G idx d then
      classifyNeighbors G oracle idx rest c b
    else if G.sealedEdge (G.ixOf idx) ((G.ixOf idx : ℤ) + d.1).toNat
        (G.izOf idx) ((G.izOf idx : ℤ) + d.2.2).toNat then
      classifyNeighbors G oracle idx rest c true
    else
      let nIdx := latNeighborIndex G idx d
      let c2 := if oracle idx nIdx then c else true
      let b2 := if oracle idx nIdx then true else b
      if c2 && b2 then (c2, b2) else classifyNeighbors G oracle idx rest c2 b2

/-- The classifier's hole-adjacency pass (source lines 3514-3533): each of the
up to four overlapping registered hole cells contributes a clear edge (never a
blocked one), with the same early exit. -/
def classifyHoleCells (G : SearchGrid) (ix iz : ℕ) :
    List (ℕ × ℕ) → Bool → Bool → Bool × Bool
  | [], c, b => (c, b)
  | p :: rest, c, b =>
    let cellX : ℤ := (ix : ℤ) - p.1
    let cellZ : ℤ := (iz : ℤ) - p.2
    if 0 ≤ cellX ∧ cellX < G.gridX ∧ 0 ≤ cellZ ∧ cellZ < G.gridZ then
      match G.holeIndexByCell (cellZ.toNat * G.gridX + cellX.toNat) with
      | some _ => if b then (true, b) else classifyHoleCells G ix iz rest true b
      | none => classifyHoleCells G ix iz rest c b
    else classifyHoleCells G ix iz rest c b

/-- Classification of one lattice vertex: the (hasClear, hasBlocked) flag pair
of source lines 3474-3533.  The vertex is boundary exactly when both flags
hold (source lines 3535-3542). -/
def classifyVertex (G : SearchGrid) (oracle : ℕ → ℕ → Bool) (idx : ℕ) : Bool × Bool :=
  let r := classifyNeighbors G oracle idx neighborOffsets false false
  if 0 < G.holeCenterCount then
    classifyHoleCells G (G.ixOf idx) (G.izOf idx) holeCellOffsets r.1 r.2
  else r

/-- An offset contributes a clear edge at `idx`: in bounds, not sealed, and
reported unobstructed by the collision oracle. -/
def latClearPred (G : SearchGrid) (oracle : ℕ → ℕ → Bool) (idx : ℕ)
    (d : ℤ × ℤ × ℤ) : Bool :=
  !latOutOfBounds G idx d
    && !G.sealedEdge (G.ixOf idx) ((G.ixOf idx : ℤ) + d.1).toNat
        (G.izOf idx) ((G.izOf idx : ℤ) + d.2.2).toNat
    && !oracle idx (latNeighborIndex G idx d)

/-- An offset contributes a blocked edge at `idx`: in bounds, and either
sealed or reported obstructed by the collision oracle.  Out-of-bounds offsets
never satisfy this. -/
def latBlockedPred (G : SearchGrid) (oracle : ℕ → ℕ → Bool) (idx : ℕ)
    (d : ℤ × ℤ × ℤ) : Bool :=
  !latOutOfBounds G idx d
    && (G.sealedEdge (G.ixOf idx) ((G.ixOf idx : ℤ) + d.1).toNat
          (G.izOf idx) ((G.izOf idx : ℤ) + d.2.2).toNat
        || oracle idx (latNeighborIndex G idx d))

/-- A (cellDx, cellDz) pair contributes a hole adjacency at lattice
coordinates (ix, iz): the shifted cell is inside the building grid and is a
registered hole cell. -/
def holeAdjPred (G : SearchGrid) (ix iz : ℕ) (p : ℕ × ℕ) : Bool :=
  if 0 ≤ (ix : ℤ) - p.1 ∧ (ix : ℤ) - p.1 < G.gridX
      ∧ 0 ≤ (iz : ℤ) - p.2 ∧ (iz : ℤ) - p.2 < G.gridZ then
    (G.holeIndexByCell (((iz : ℤ) - p.2).toNat * G.gridX + ((ix : ℤ) - p.1).toNat)).isSome
  else false

theorem classifyNeighbors_eq (G : SearchGrid) (oracle : ℕ → ℕ → Bool) (idx : ℕ) :
    ∀ (l : List (ℤ × ℤ × ℤ)) (c b : Bool),
      classifyNeighbors G oracle idx l c b
        = (c || l.any (latClearPred G oracle idx), b || l.any (latBlockedPred G oracle idx)) := by
  intro l
  induction l with
  | nil => intro c b; simp [classifyNeighbors]
  | cons d rest ih =>
    intro c b
    rw [classifyNeighbors]
    by_cases hoob : latOutOfBounds G idx d = true
    · rw [if_pos hoob, ih]
      simp [latClearPred, latBlockedPred, hoob]
    · rw [if_neg hoob]
      by_cases hseal : G.sealedEdge (G.ixOf idx) ((G.ixOf idx : ℤ) + d.1).toNat
          (G.izOf idx) ((G.izOf idx : ℤ) + d.2.2).toNat = true
      · rw [if_pos hseal, ih]
        simp [latClearPred, latBlockedPred, hoob, hseal]
      · rw [if_neg hseal]
        by_cases horc : oracle idx (latNeighborIndex G idx d) = true
        · simp only [horc, if_true]
          by_cases hc : c = true
          · simp only [hc, Bool.true_and, if_true]
            simp [latClearPred, latBlockedPred, hoob, hseal, horc, hc]
          · have hc' : c = false := by revert hc; cases c <;> simp
            simp only [hc', Bool.false_and, if_false, ih]
            simp [latClearPred, latBlockedPred, hoob, hseal, horc]
        · have horc' : oracle idx (latNeighborIndex G idx d) = false := by
            revert horc; cases oracle idx (latNeighborIndex G idx d) <;> simp
          simp only [horc', if_false, Bool.true_and]
          by_cases hb : b = true
          · simp only [hb, if_true]
            simp [latClearPred, latBlockedPred, hoob, hseal, horc', hb]
          · have hb' : b = false := by revert hb; cases b <;> simp
            simp only [hb', if_false, ih]
            simp [latClearPred, latBlockedPred, hoob, hseal, horc']

theorem classifyHoleCells_eq (G : SearchGrid) (ix iz : ℕ) :
    ∀ (l : List (ℕ × ℕ)) (c b : Bool),
      classifyHoleCells G ix iz l c b
        = (c || l.any (holeAdjPred G ix iz), b) := by
  intro l
  induction l with
  | nil => intro c b; simp [classifyHoleCells]
  | cons p rest ih =>
    intro c b
    rw [classifyHoleCells, List.any_cons]
    by_cases hcell : 0 ≤ (ix : ℤ) - p.1 ∧ (ix : ℤ) - p.1 < G.gridX
        ∧ 0 ≤ (iz : ℤ) - p.2 ∧ (iz : ℤ) - p.2 < G.gridZ
    · rw [if_pos hcell]
      rcases hh : G.holeIndexByCell (((iz : ℤ) - p.2).toNat * G.gridX + ((ix : ℤ) - p.1).toNat)
        with _ | k
      · have hap : holeAdjPred G ix iz p = false := by
          rw [holeAdjPred, if_pos hcell, hh]; rfl
        rw [hap]
        show classifyHoleCells G ix iz rest c b
          = (c || (false || rest.any (holeAdjPred G ix iz)), b)
        rw [ih]
        simp
      · have hap : holeAdjPred G ix iz p = true := by
          rw [holeAdjPred, if_pos hcell, hh]; rfl
        rw [hap]
        cases b with
        | true =>
          show (if (true : Bool) = true then ((true : Bool), true)
              else classifyHoleCells G ix iz rest true true)
            = (c || (true || rest.any (holeAdjPred G ix iz)), true)
          simp
        | false =>
          show (if (false : Bool) = true then ((true : Bool), false)
              else classifyHoleCells G ix iz rest true false)
            = (c || (true || rest.any (holeAdjPred G ix iz)), false)
          rw [if_neg (by simp), ih]
          simp
    · rw [if_neg hcell]
      have hap : holeAdjPred G ix iz p = false := by
        rw [holeAdjPred, if_neg hcell]
      rw [ih, hap]
      simp

/-- Concrete grid for the C5 counterexample: a 2x1x2 vertex lattice (countX =
countZ = 1, countY = 0) with both domain edges open and no buildings and no
hole cells at all. -/
def c5Grid : SearchGrid :=
  { countX := 1, countY := 0, countZ := 1, edgesOpenX := true, edgesOpenZ := true,
    gridX := 0, gridZ := 0, holeCells := [] }

/-- Collision oracle reporting every edge unobstructed (no buildings). -/
def c5Oracle : ℕ → ℕ → Bool := fun _ _ => false

/-- C5 counterexample: node 0 of `c5Grid` sits on the lattice edge (it has
out-of-bounds 26-neighborhood offsets), every one of its in-bounds edges is
clear (not sealed, oracle reports unobstructed), yet the classifier reports
(hasClear, hasBlocked) = (true, false), i.e. NOT a boundary node — refuting
the claim that an out-of-bounds offset counts as a blocked edge and that such
a node is classified as boundary. -/
theorem c5_counterexample :
    (neighborOffsets.any (fun d => latOutOfBounds c5Grid 0 d))
      ∧ (neighborOffsets.all (fun d =>
            latOutOfBounds c5Grid 0 d || latClearPred c5Grid c5Oracle 0 d))
      ∧ classifyVertex c5Grid c5Oracle 0 = (true, false) := by
  decide

/-- C5 amended: in the visibility classifier, a 26-neighbor offset that falls
outside the lattice bounds is skipped entirely and contributes neither a
clear nor a blocked edge; the hasBlocked flag holds iff some IN-bounds offset
crosses a sealed domain boundary or is reported obstructed by the collision
oracle, and the hasClear flag holds iff some in-bounds offset is unsealed and
unobstructed or the node touches a registered hole cell.  Consequently a node
on the lattice edge whose in-bounds edges are all clear is classified clear
and is NOT a boundary node. -/
theorem c5_boundary_characterization (G : SearchGrid) (oracle : ℕ → ℕ → Bool) (idx : ℕ) :
    classifyVertex G oracle idx
      = (neighborOffsets.any (latClearPred G oracle idx)
           || (decide (0 < G.holeCenterCount)
               && holeCellOffsets.any (holeAdjPred G (G.ixOf idx) (G.izOf idx))),
         neighborOffsets.any (latBlockedPred G oracle idx)) := by
  rw [classifyVertex]
  by_cases h : 0 < G.holeCenterCount
  · rw [if_pos h, classifyNeighbors_eq, classifyHoleCells_eq]
    simp [h]
  · rw [if_neg h, classifyNeighbors_eq]
    simp [h]

/-! ## Cost model and A* scratch state (source lines 3575-3581, 3651-3870) -/

/-- The per-build oracle and metric data consumed by the search:
`oracle a b` models `segmentHitsBuildings` on the segment joining the
positions of nodes `a` and `b` (both node positions determine the call's
arguments in the source); `cost a b` models the edge cost computed at each
relaxation site (anisotropic 26-offset cost, planar hole distance, or
`voxelHeight`), and `heur goal n` models the Euclidean heuristic of node `n`
towards `goal`.  All are functions of the node indices because in the source
each is computed from the endpoint coordinates alone. -/
structure CostModel where
  oracle : ℕ → ℕ → Bool
  cost : ℕ → ℕ → ℚ
  heur : ℕ → ℕ → ℚ

/-- The reusable A* scratch arrays (source lines 3575-3581) plus the current
search stamp: `parents`, `closed` (stamp at which a node was closed),
`gScore` with its validity stamp `gStamp`. -/
structure AState where
  parents : ℕ → ℕ
  closed : ℕ → ℕ
  gScore : ℕ → WithTop ℚ
  gStamp : ℕ → ℕ
  stamp : ℕ

/-- Fresh scratch state at build start: zero-filled arrays, stamp 1
(source lines 3575-3581). -/
def AState.initial : AState :=
  { parents := fun _ => 0, closed := fun _ => 0, gScore := fun _ => 0,
    gStamp := fun _ => 0, stamp := 1 }

/-! ## Binary min-heap (source lines 3583-3625) -/

abbrev HeapEntry := ℕ × WithTop ℚ

def heapDefault : HeapEntry := (0, ⊤)

/-- Sift-up pass of `heapPush` (source lines 3587-3595): swap the inserted
entry with its parent while the parent's score is larger.  The fuel only
needs to exceed the start index since the index strictly decreases. -/
def heapSiftUp : ℕ → Array HeapEntry → ℕ → Array HeapEntry
  | 0, h, _ => h
  | fuel + 1, h, i =>
    if i = 0 then h
    else
      let parent := (i - 1) / 2
      if (h.getD parent heapDefault).2 ≤ (h.getD i heapDefault).2 then h
      else
        let a := h.getD parent heapDefault
        let b := h.getD i heapDefault
        heapSiftUp fuel ((h.setD parent b).setD i a) parent

/-- Source lines 3583-3597. -/
def heapPush (h : Array HeapEntry) (idx : ℕ) (score : WithTop ℚ) : Array HeapEntry :=
  heapSiftUp (h.size + 1) (h.push (idx, score)) h.size

/-- Sift-down pass of `heapPop` (source lines 3604-3623): move the smaller
child up until the displaced last entry fits at position `i`, then place it. -/
def heapSiftDown : ℕ → Array HeapEntry → ℕ → HeapEntry → Array HeapEntry
  | 0, h, i, last => h.setD i last
  | fuel + 1, h, i, last =>
    let left := 2 * i + 1
    if h.size ≤ left then h.setD i last
    else
      let right := left + 1
      let child :=
        if right < h.size ∧ (h.getD right heapDefault).2 < (h.getD left heapDefault).2
        then right else left
      if last.2 ≤ (h.getD child heapDefault).2 then h.setD i last
      else heapSiftDown fuel (h.setD i (h.getD child heapDefault)) child last

/-- Source lines 3599-3625: pop the root; when entries remain, sift the former
last entry down from the root. -/
def heapPop (h : Array HeapEntry) : Option (HeapEntry × Array HeapEntry) :=
  if h.size = 0 then none
  else
    let top := h.getD 0 heapDefault
    let rest := h.pop
    if rest.size = 0 then some (top, rest)
    else some (top, heapSiftDown rest.size rest 0 (h.getD (h.size - 1) heapDefault))

/-! ## Graph-edge enumeration of the A* neighbour loops (source lines 3693-3846) -/

/-- Search context: graph, cost model, usage table with cap, and goal node. -/
structure SCtx where
  G : SearchGrid
  cm : CostModel
  usage : ℕ → ℕ
  cap : ℕ
  goal : ℕ

/-- The relaxation slack of source lines 3742/3769/3805/3821: an improvement
below `1e-6` is discarded. -/
def epsRat : ℚ := 1 / 1000000

/-- A lattice-to-lattice 26-offset edge from `a` in direction `d`, as admitted
by the guards of source lines 3705-3739: `a` is a lattice node, the neighbour
is in bounds, the edge does not cross a sealed domain boundary, and the
collision oracle reports it unobstructed.  Returns the neighbour index.
(The transient guards — usage cap and closed set — are checked separately at
the relaxation site.) -/
def latStepSpec (G : SearchGrid) (cm : CostModel) (a : ℕ) (d : ℤ × ℤ × ℤ) : Option ℕ :=
  if decide (a < G.holeCenterBaseIndex)
      && !latOutOfBounds G a d
      && !G.sealedEdge (G.ixOf a) ((G.ixOf a : ℤ) + d.1).toNat
            (G.izOf a) ((G.izOf a : ℤ) + d.2.2).toNat
      && !cm.oracle a (latNeighborIndex G a d) then
    some (latNeighborIndex G a d)
  else none

/-- A planar lattice-to-hole-center edge from lattice node `a` through
cell-offset pair `p` (source lines 3750-3777): the shifted cell is inside the
building grid and registered as a hole cell; the target is that hole column's
node at the same Y.  Never collision-tested. -/
def latHoleSpec (G : SearchGrid) (a : ℕ) (p : ℕ × ℕ) : Option ℕ :=
  if decide (a < G.holeCenterBaseIndex)
      && holeAdjPred G (G.ixOf a) (G.izOf a) p then
    match G.holeIndexByCell ((((G.izOf a : ℤ) - p.2).toNat) * G.gridX
        + ((G.ixOf a : ℤ) - p.1).toNat) with
    | some k => some (G.holeCenterBaseIndex + k * G.vertexCountY + G.iyOf a)
    | none => none
  else none

/-- Decomposition of a hole-center node index into its cell coordinates and
Y-level, when valid (source lines 3779-3790): requires the hole index part to
be within the registered hole-cell list, as checked by the source before
processing. -/
def holeNodeData (G : SearchGrid) (a : ℕ) : Option (ℕ × ℕ × ℕ) :=
  if G.holeCenterBaseIndex ≤ a then
    let hv := a - G.holeCenterBaseIndex
    let k := hv / G.vertexCountY
    if k < G.holeCells.length then
      let iy := hv - k * G.vertexCountY
      let cell := G.holeCells.getD k 0
      some (cell % G.gridX, cell / G.gridX, iy)
    else none
  else none

/-- A planar hole-center-to-lattice-corner edge (source lines 3793-3811):
from hole node `a` to the lattice vertex at corner `q` of its cell, same Y.
The source performs no lattice-bounds check here.  Never collision-tested. -/
def holeCornerSpec (G : SearchGrid) (a : ℕ) (q : ℕ × ℕ) : Option ℕ :=
  match holeNodeData G a with
  | some (cellX, cellZ, iy) =>
      some ((cellX + q.1) + iy * G.strideY + (cellZ + q.2) * G.strideZ)
  | none => none

/-- A vertical hole-center edge (source lines 3813-3845): to the adjacent
Y-level of the same hole column (`up = true` for +Y).  Never
collision-tested. -/
def holeVertSpec (G : SearchGrid) (a : ℕ) (up : Bool) : Option ℕ :=
  match holeNodeData G a with
  | some (_, _, iy) =>
      if up then (if iy + 1 < G.vertexCountY then some (a + 1) else none)
      else (if 0 < iy then some (a - 1) else none)
  | none => none

/-- A valid edge of the search graph of §4.5, as enumerated by the A*
neighbour loops: a 26-neighborhood lattice edge passing the sealed-boundary
check and reported unblocked by the collision oracle, a lattice-to-hole-center
planar edge, a hole-center corner edge, or a hole-center vertical edge. -/
def graphEdge (G : SearchGrid) (cm : CostModel) (a b : ℕ) : Prop :=
  (∃ d ∈ neighborOffsets, latStepSpec G cm a d = some b)
    ∨ (∃ p ∈ holeCellOffsets, latHoleSpec G a p = some b)
    ∨ (∃ q ∈ cornerOffsets, holeCornerSpec G a q = some b)
    ∨ holeVertSpec G a true = some b ∨ holeVertSpec G a false = some b

instance (G : SearchGrid) (cm : CostModel) (a b : ℕ) :
    Decidable (graphEdge G cm a b) := by
  unfold graphEdge
  infer_instance

/-! ## The relaxation sites (source lines 3703-3846) -/

/-- One relaxation (source lines 3741-3747 and analogues): when the target is
unstamped for this search or improves the recorded score by more than `1e-6`,
record score, stamp and parent and push with f = g + h.  The source condition
`tentative < gScore - 1e-6` is written `tentative + 1e-6 < gScore`, its exact
arithmetic equivalent, to keep the score type `WithTop ℚ` (the `Infinity`
default of line 3703 is modelled by `⊤`). -/
def relaxStep (C : SCtx) (idx nIdx : ℕ) (base : WithTop ℚ) (st : AState)
    (h : Array HeapEntry) : AState × Array HeapEntry :=
  let tentative : WithTop ℚ := base + ((C.cm.cost idx nIdx : ℚ) : WithTop ℚ)
  if st.gStamp nIdx ≠ st.stamp ∨ tentative + ((epsRat : ℚ) : WithTop ℚ) < st.gScore nIdx then
    ({ st with gScore := updFn st.gScore nIdx tentative,
               gStamp := updFn st.gStamp nIdx st.stamp,
               parents := updFn st.parents nIdx idx },
     heapPush h nIdx (tentative + ((C.cm.heur C.goal nIdx : ℚ) : WithTop ℚ)))
  else (st, h)

/-- Processing of one 26-offset from a popped lattice node (source lines
3705-3748).  The structural guards are `latStepSpec`; the transient guards
(usage cap, closed set) are checked here.  The source tests the usage cap and
closed set before calling the oracle; the reordering is behaviour-equivalent
because all guards are side-effect-free conjuncts. -/
def latNeighborStep (C : SCtx) (a : ℕ) (base : WithTop ℚ)
    (sh : AState × Array HeapEntry) (d : ℤ × ℤ × ℤ) : AState × Array HeapEntry :=
  match latStepSpec C.G C.cm a d with
  | none => sh
  | some nIdx =>
    if C.cap ≤ C.usage nIdx then sh
    else if sh.1.closed nIdx = sh.1.stamp then sh
    else relaxStep C a nIdx base sh.1 sh.2

/-- Processing of one overlapping hole column from a popped lattice node
(source lines 3750-3777). -/
def latHoleStep (C : SCtx) (a : ℕ) (base : WithTop ℚ)
    (sh : AState × Array HeapEntry) (p : ℕ × ℕ) : AState × Array HeapEntry :=
  match latHoleSpec C.G a p with
  | none => sh
  | some nIdx =>
    if C.cap ≤ C.usage nIdx then sh
    else if sh.1.closed nIdx = sh.1.stamp then sh
    else relaxStep C a nIdx base sh.1 sh.2

/-- Processing of one cell corner from a popped hole-center node (source
lines 3793-3811). -/
def holeCornerStep (C : SCtx) (a : ℕ) (base : WithTop ℚ)
    (sh : AState × Array HeapEntry) (q : ℕ × ℕ) : AState × Array HeapEntry :=
  match holeCornerSpec C.G a q with
  | none => sh
  | some nIdx =>
    if C.cap ≤ C.usage nIdx then sh
    else if sh.1.closed nIdx = sh.1.stamp then sh
    else relaxStep C a nIdx base sh.1 sh.2

/-- The +Y vertical edge from a popped hole-center node (source lines
3830-3845). -/
def holeVertUp (C : SCtx) (a : ℕ) (base : WithTop ℚ)
    (sh : AState × Array HeapEntry) : AState × Array HeapEntry :=
  match holeVertSpec C.G a true with
  | none => sh
  | some nIdx =>
    if C.cap ≤ C.usage nIdx then sh
    else if sh.1.closed nIdx ≠ sh.1.stamp then relaxStep C a nIdx base sh.1 sh.2
    else sh

/-- The -Y then +Y vertical edges from a popped hole-center node (source
lines 3813-3845).  Note the quirk of line 3816: when the -Y neighbour is at
the usage cap the source executes `continue`, which also skips the +Y
neighbour. -/
def holeVertDownUp (C : SCtx) (a : ℕ) (base : WithTop ℚ)
    (sh : AState × Array HeapEntry) : AState × Array HeapEntry :=
  match holeVertSpec C.G a false with
  | none => holeVertUp C a base sh
  | some nIdx =>
    if C.cap ≤ C.usage nIdx then sh
    else
      holeVertUp C a base
        (if sh.1.closed nIdx ≠ sh.1.stamp then relaxStep C a nIdx base sh.1 sh.2 else sh)

/-! ## The A* main loop (source lines 3651-3870) -/

/-- Expansion of a popped lattice node (source lines 3693-3777): compute the
base cost once (`⊤` models the `Infinity` of line 3703), fold the 26 offsets,
then the up to four overlapping hole columns when hole centers exist. -/
def latNodeExpand (C : SCtx) (a : ℕ) (st : AState) (h : Array HeapEntry) :
    AState × Array HeapEntry :=
  let base := if st.gStamp a = st.stamp then st.gScore a else ⊤
  let sh := neighborOffsets.foldl (latNeighborStep C a base) (st, h)
  if 0 < C.G.holeCenterCount then holeCellOffsets.foldl (latHoleStep C a base) sh
  else sh

/-- Expansion of a popped hole-center node (source lines 3778-3846): when the
decomposition is invalid the source `continue`s without expanding; otherwise
fold the four cell corners, then the vertical edges. -/
def holeNodeExpand (C : SCtx) (a : ℕ) (st : AState) (h : Array HeapEntry) :
    AState × Array HeapEntry :=
  match holeNodeData C.G a with
  | none => (st, h)
  | some _ =>
    let base := if st.gStamp a = st.stamp then st.gScore a else ⊤
    holeVertDownUp C a base (cornerOffsets.foldl (holeCornerStep C a base) (st, h))

/-- The main loop of `aStar` (source lines 3677-3847), with explicit fuel.
Returns the final scratch state and whether the cancellation check fired
(`iterations & 0x3fff == 0` in the source is `iterations % 16384 == 0`).
Fuel exhaustion behaves like heap exhaustion; all facts proved below are
conditional on the returned outcome, not on the fuel. -/
def aStarLoop (C : SCtx) (mismatch : Bool) :
    ℕ → ℕ → AState → Array HeapEntry → AState × Bool
  | 0, _, st, _ => (st, false)
  | fuel + 1, iterations, st, h =>
    if h.size = 0 then (st, false)
    else if iterations % 16384 = 0 ∧ mismatch = true then (st, true)
    else
      match heapPop h with
      | none => (st, false)
      | some (top, h2) =>
        if st.closed top.1 = st.stamp then aStarLoop C mismatch fuel (iterations + 1) st h2
        else
          if top.1 = C.goal then
            ({ st with closed := updFn st.closed top.1 st.stamp }, false)
          else if top.1 < C.G.holeCenterBaseIndex then
            let sh := latNodeExpand C top.1
              { st with closed := updFn st.closed top.1 st.stamp } h2
            aStarLoop C mismatch fuel (iterations + 1) sh.1 sh.2
          else
            let sh := holeNodeExpand C top.1
              { st with closed := updFn st.closed top.1 st.stamp } h2
            aStarLoop C mismatch fuel (iterations + 1) sh.1 sh.2

/-- Path reconstruction (source lines 3853-3868): walk the parent chain from
the goal, guarded by the per-node stamp and the `safety` bound; the fuel is
the remaining safety budget (`totalNodeCount` at the initial call). -/
def reconstructAux (st : AState) (start : ℕ) :
    ℕ → ℕ → List ℕ → Option (List ℕ)
  | 0, current, acc => if current = start then some (start :: acc) else none
  | fuel + 1, current, acc =>
    if current = start then some (start :: acc)
    else if st.gStamp current ≠ st.stamp then none
    else reconstructAux st start fuel (st.parents current) (current :: acc)

inductive PathResult where
  | found (path : List ℕ)
  | failed
  | cancelled
deriving DecidableEq

/-- The capacity-limited cancellable A* search (source lines 3651-3870).
Threads the reusable scratch state: bump (or overflow-reset) the stamp,
reject start/end already at the usage cap, seed the start node and the heap,
run the main loop, then reconstruct on success.  `mismatch` is the value of
`token !== activeToken` (constant during a build in the single-threaded
worker); `fuel` bounds the main loop. -/
def bumpStamp (st0 : AState) : AState :=
  if 0x7ffffffe ≤ st0.stamp + 1 then
    { st0 with closed := fun _ => 0, gStamp := fun _ => 0, stamp := 1 }
  else { st0 with stamp := st0.stamp + 1 }

/-- Seeding of the start node (source lines 3670-3672). -/
def seedStart (st1 : AState) (startIndex : ℕ) : AState :=
  { st1 with
    gScore := updFn st1.gScore startIndex 0,
    gStamp := updFn st1.gStamp startIndex st1.stamp,
    parents := updFn st1.parents startIndex startIndex }

def aStar (G : SearchGrid) (cm : CostModel) (usage : ℕ → ℕ) (cap : ℕ)
    (mismatch : Bool) (fuel : ℕ) (st0 : AState) (startIndex endIndex : ℕ) :
    PathResult × AState :=
  let st1 := bumpStamp st0
  if cap ≤ usage startIndex ∨ cap ≤ usage endIndex then (.failed, st1)
  else
    let C : SCtx := { G := G, cm := cm, usage := usage, cap := cap, goal := endIndex }
    let st2 := seedStart st1 startIndex
    let h0 := heapPush #[] startIndex ((cm.heur endIndex startIndex : ℚ) : WithTop ℚ)
    let r := aStarLoop C mismatch fuel 0 st2 h0
    if r.2 then (.cancelled, r.1)
    else if r.1.closed endIndex ≠ r.1.stamp then (.failed, r.1)
    else
      match reconstructAux r.1 startIndex G.totalNodeCount endIndex [] with
      | some p => (.found p, r.1)
      | none => (.failed, r.1)

/-! ## C1 invariant: every stamped node's parent edge is a valid graph edge -/

/-- Fold preservation of a predicate, with membership available to the step
hypothesis. -/
theorem foldl_preserve {α σ : Type} (P : σ → Prop) (f : σ → α → σ) (l : List α)
    (h : ∀ s a, a ∈ l → P s → P (f s a)) (s : σ) (hs : P s) : P (l.foldl f s) := by
  induction l generalizing s with
  | nil => exact hs
  | cons a rest ih =>
    exact ih (fun s2 x hx => h s2 x (List.mem_cons_of_mem a hx)) _
      (h s a (List.mem_cons_self a rest) hs)

/-- The search invariant: every node stamped in the current search, other
than the start node, has a parent pointer recorded along a valid graph
edge. -/
def SearchInv (G : SearchGrid) (cm : CostModel) (start : ℕ) (st : AState) : Prop :=
  ∀ n, st.gStamp n = st.stamp → n ≠ start → graphEdge G cm (st.parents n) n

theorem relaxStep_inv (C : SCtx) (start a b : ℕ) (base : WithTop ℚ) (st : AState)
    (h : Array HeapEntry) (hInv : SearchInv C.G C.cm start st)
    (hEdge : graphEdge C.G C.cm a b) :
    SearchInv C.G C.cm start (relaxStep C a b base st h).1 := by
  unfold relaxStep
  dsimp only
  split
  · intro n hstamp hne
    by_cases hnb : n = b
    · subst hnb
      simpa [updFn_same] using hEdge
    · simp only [updFn_other _ _ _ _ hnb] at hstamp ⊢
      exact hInv n hstamp hne
  · exact hInv

theorem latNeighborStep_inv (C : SCtx) (start a : ℕ) (base : WithTop ℚ)
    (sh : AState × Array HeapEntry) (d : ℤ × ℤ × ℤ) (hd : d ∈ neighborOffsets)
    (hInv : SearchInv C.G C.cm start sh.1) :
    SearchInv C.G C.cm start (latNeighborStep C a base sh d).1 := by
  unfold latNeighborStep
  cases hspec : latStepSpec C.G C.cm a d with
  | none => exact hInv
  | some nIdx =>
    dsimp only
    split
    · exact hInv
    · split
      · exact hInv
      · exact relaxStep_inv C start a nIdx base sh.1 sh.2 hInv
          (Or.inl ⟨d, hd, hspec⟩)

theorem latHoleStep_inv (C : SCtx) (start a : ℕ) (base : WithTop ℚ)
    (sh : AState × Array HeapEntry) (p : ℕ × ℕ) (hp : p ∈ holeCellOffsets)
    (hInv : SearchInv C.G C.cm start sh.1) :
    SearchInv C.G C.cm start (latHoleStep C a base sh p).1 := by
  unfold latHoleStep
  cases hspec : latHoleSpec C.G a p with
  | none => exact hInv
  | some nIdx =>
    dsimp only
    split
    · exact hInv
    · split
      · exact hInv
      · exact relaxStep_inv C start a nIdx base sh.1 sh.2 hInv
          (Or.inr (Or.inl ⟨p, hp, hspec⟩))

theorem holeCornerStep_inv (C : SCtx) (start a : ℕ) (base : WithTop ℚ)
    (sh : AState × Array HeapEntry) (q : ℕ × ℕ) (hq : q ∈ cornerOffsets)
    (hInv : SearchInv C.G C.cm start sh.1) :
    SearchInv C.G C.cm start (holeCornerStep C a base sh q).1 := by
  unfold holeCornerStep
  cases hspec : holeCornerSpec C.G a q with
  | none => exact hInv
  | some nIdx =>
    dsimp only
    split
    · exact hInv
    · split
      · exact hInv
      · exact relaxStep_inv C start a nIdx base sh.1 sh.2 hInv
          (Or.inr (Or.inr (Or.inl ⟨q, hq, hspec⟩)))

theorem holeVertUp_inv (C : SCtx) (start a : ℕ) (base : WithTop ℚ)
    (sh : AState × Array HeapEntry)
    (hInv : SearchInv C.G C.cm start sh.1) :
    SearchInv C.G C.cm start (holeVertUp C a base sh).1 := by
  unfold holeVertUp
  cases hspec : holeVertSpec C.G a true with
  | none => exact hInv
  | some nIdx =>
    dsimp only
    split
    · exact hInv
    · split
      · exact relaxStep_inv C start a nIdx base sh.1 sh.2 hInv
          (Or.inr (Or.inr (Or.inr (Or.inl hspec))))
      · exact hInv

theorem holeVertDownUp_inv (C : SCtx) (start a : ℕ) (base : WithTop ℚ)
    (sh : AState × Array HeapEntry)
    (hInv : SearchInv C.G C.cm start sh.1) :
    SearchInv C.G C.cm start (holeVertDownUp C a base sh).1 := by
  unfold holeVertDownUp
  cases hspec : holeVertSpec C.G a false with
  | none => exact holeVertUp_inv C start a base sh hInv
  | some nIdx =>
    dsimp only
    split
    · exact hInv
    · apply holeVertUp_inv
      split
      · exact relaxStep_inv C start a nIdx base sh.1 sh.2 hInv
          (Or.inr (Or.inr (Or.inr (Or.inr hspec))))
      · exact hInv

theorem latNodeExpand_inv (C : SCtx) (start a : ℕ) (st : AState)
    (h : Array HeapEntry) (hInv : SearchInv C.G C.cm start st) :
    SearchInv C.G C.cm start (latNodeExpand C a st h).1 := by
  unfold latNodeExpand
  dsimp only
  have h1 : SearchInv C.G C.cm start
      (neighborOffsets.foldl
        (latNeighborStep C a (if st.gStamp a = st.stamp then st.gScore a else ⊤)) (st, h)).1 :=
    foldl_preserve (fun sh => SearchInv C.G C.cm start sh.1) _ _
      (fun sh d hd hP => latNeighborStep_inv C start a _ sh d hd hP) (st, h) hInv
  by_cases hc : 0 < C.G.holeCenterCount
  · rw [if_pos hc]
    exact foldl_preserve (fun sh => SearchInv C.G C.cm start sh.1) _ _
      (fun sh p hp hP => latHoleStep_inv C start a _ sh p hp hP) _ h1
  · rw [if_neg hc]
    exact h1

theorem holeNodeExpand_inv (C : SCtx) (start a : ℕ) (st : AState)
    (h : Array HeapEntry) (hInv : SearchInv C.G C.cm start st) :
    SearchInv C.G C.cm start (holeNodeExpand C a st h).1 := by
  unfold holeNodeExpand
  cases holeNodeData C.G a with
  | none => exact hInv
  | some x =>
    dsimp only
    apply holeVertDownUp_inv
    exact foldl_preserve (fun sh => SearchInv C.G C.cm start sh.1) _ _
      (fun sh q hq hP => holeCornerStep_inv C start a _ sh q hq hP) (st, h) hInv

theorem closed_update_inv (G : SearchGrid) (cm : CostModel) (start : ℕ)
    (st : AState) (i v : ℕ) (hInv : SearchInv G cm start st) :
    SearchInv G cm start { st with closed := updFn st.closed i v } := by
  intro n hstamp hne
  exact hInv n hstamp hne

theorem aStarLoop_inv (C : SCtx) (mismatch : Bool) (start : ℕ) :
    ∀ (fuel iterations : ℕ) (st : AState) (h : Array HeapEntry),
      SearchInv C.G C.cm start st →
      SearchInv C.G C.cm start (aStarLoop C mismatch fuel iterations st h).1 := by
  intro fuel
  induction fuel with
  | zero => intro iterations st h hInv; simpa [aStarLoop] using hInv
  | succ fuel ih =>
    intro iterations st h hInv
    simp only [aStarLoop]
    split
    · exact hInv
    · split
      · exact hInv
      · cases heapPop h with
        | none => exact hInv
        | some th =>
          dsimp only
          split
          · exact ih _ _ _ hInv
          · split
            · exact closed_update_inv _ _ _ _ _ _ hInv
            · split
              · exact ih _ _ _
                  (latNodeExpand_inv C start th.1.1 _ th.2
                    (closed_update_inv _ _ _ _ _ _ hInv))
              · exact ih _ _ _
                  (holeNodeExpand_inv C start th.1.1 _ th.2
                    (closed_update_inv _ _ _ _ _ _ hInv))

/-! ## Stamp sanity: recorded g-stamps never exceed the current stamp -/

/-- Every recorded gScore stamp is at most the current search stamp.  This
holds for the fresh scratch state and is preserved by every search; it is
what makes the O(1) stamp invalidation of §4.5 sound. -/
def StampOk (st : AState) : Prop := ∀ n, st.gStamp n ≤ st.stamp

theorem stampOk_initial : StampOk AState.initial := by
  intro n; simp [AState.initial]

theorem relaxStep_stampOk (C : SCtx) (a b : ℕ) (base : WithTop ℚ) (st : AState)
    (h : Array HeapEntry) (hOk : StampOk st) :
    StampOk (relaxStep C a b base st h).1 := by
  unfold relaxStep
  dsimp only
  split
  · intro n
    dsimp only
    by_cases hnb : n = b
    · subst hnb; rw [updFn_same]
    · rw [updFn_other _ _ _ _ hnb]; exact hOk n
  · exact hOk

theorem relaxStep_stamp_eq (C : SCtx) (a b : ℕ) (base : WithTop ℚ) (st : AState)
    (h : Array HeapEntry) :
    (relaxStep C a b base st h).1.stamp = st.stamp := by
  unfold relaxStep
  dsimp only
  split <;> rfl

theorem latNeighborStep_stampOk (C : SCtx) (a : ℕ) (base : WithTop ℚ)
    (sh : AState × Array HeapEntry) (d : ℤ × ℤ × ℤ) (hOk : StampOk sh.1) :
    StampOk (latNeighborStep C a base sh d).1 := by
  unfold latNeighborStep
  cases latStepSpec C.G C.cm a d with
  | none => exact hOk
  | some nIdx =>
    dsimp only
    split
    · exact hOk
    · split
      · exact hOk
      · exact relaxStep_stampOk C a nIdx base sh.1 sh.2 hOk

theorem latHoleStep_stampOk (C : SCtx) (a : ℕ) (base : WithTop ℚ)
    (sh : AState × Array HeapEntry) (p : ℕ × ℕ) (hOk : StampOk sh.1) :
    StampOk (latHoleStep C a base sh p).1 := by
  unfold latHoleStep
  cases latHoleSpec C.G a p with
  | none => exact hOk
  | some nIdx =>
    dsimp only
    split
    · exact hOk
    · split
      · exact hOk
      · exact relaxStep_stampOk C a nIdx base sh.1 sh.2 hOk

theorem holeCornerStep_stampOk (C : SCtx) (a : ℕ) (base : WithTop ℚ)
    (sh : AState × Array HeapEntry) (q : ℕ × ℕ) (hOk : StampOk sh.1) :
    StampOk (holeCornerStep C a base sh q).1 := by
  unfold holeCornerStep
  cases holeCornerSpec C.G a q with
  | none => exact hOk
  | some nIdx =>
    dsimp only
    split
    · exact hOk
    · split
      · exact hOk
      · exact relaxStep_stampOk C a nIdx base sh.1 sh.2 hOk

theorem holeVertUp_stampOk (C : SCtx) (a : ℕ) (base : WithTop ℚ)
    (sh : AState × Array HeapEntry) (hOk : StampOk sh.1) :
    StampOk (holeVertUp C a base sh).1 := by
  unfold holeVertUp
  cases holeVertSpec C.G a true with
  | none => exact hOk
  | some nIdx =>
    dsimp only
    split
    · exact hOk
    · split
      · exact relaxStep_stampOk C a nIdx base sh.1 sh.2 hOk
      · exact hOk

theorem holeVertDownUp_stampOk (C : SCtx) (a : ℕ) (base : WithTop ℚ)
    (sh : AState × Array HeapEntry) (hOk : StampOk sh.1) :
    StampOk (holeVertDownUp C a base sh).1 := by
  unfold holeVertDownUp
  cases holeVertSpec C.G a false with
  | none => exact holeVertUp_stampOk C a base sh hOk
  | some nIdx =>
    dsimp only
    split
    · exact hOk
    · apply holeVertUp_stampOk
      split
      · exact relaxStep_stampOk C a nIdx base sh.1 sh.2 hOk
      · exact hOk

theorem latNodeExpand_stampOk (C : SCtx) (a : ℕ) (st : AState)
    (h : Array HeapEntry) (hOk : StampOk st) :
    StampOk (latNodeExpand C a st h).1 := by
  unfold latNodeExpand
  dsimp only
  have h1 : StampOk
      (neighborOffsets.foldl
        (latNeighborStep C a (if st.gStamp a = st.stamp then st.gScore a else ⊤)) (st, h)).1 :=
    foldl_preserve (fun sh => StampOk sh.1) _ _
      (fun sh d _ hP => latNeighborStep_stampOk C a _ sh d hP) (st, h) hOk
  by_cases hc : 0 < C.G.holeCenterCount
  · rw [if_pos hc]
    exact foldl_preserve (fun sh => StampOk sh.1) _ _
      (fun sh p _ hP => latHoleStep_stampOk C a _ sh p hP) _ h1
  · rw [if_neg hc]
    exact h1

theorem holeNodeExpand_stampOk (C : SCtx) (a : ℕ) (st : AState)
    (h : Array HeapEntry) (hOk : StampOk st) :
    StampOk (holeNodeExpand C a st h).1 := by
  unfold holeNodeExpand
  cases holeNodeData C.G a with
  | none => exact hOk
  | some x =>
    dsimp only
    apply holeVertDownUp_stampOk
    exact foldl_preserve (fun sh => StampOk sh.1) _ _
      (fun sh q _ hP => holeCornerStep_stampOk C a _ sh q hP) (st, h) hOk

theorem closed_update_stampOk (st : AState) (i v : ℕ) (hOk : StampOk st) :
    StampOk { st with closed := updFn st.closed i v } := fun n => hOk n

theorem aStarLoop_stampOk (C : SCtx) (mismatch : Bool) :
    ∀ (fuel iterations : ℕ) (st : AState) (h : Array HeapEntry),
      StampOk st → StampOk (aStarLoop C mismatch fuel iterations st h).1 := by
  intro fuel
  induction fuel with
  | zero => intro iterations st h hOk; simpa [aStarLoop] using hOk
  | succ fuel ih =>
    intro iterations st h hOk
    simp only [aStarLoop]
    split
    · exact hOk
    · split
      · exact hOk
      · cases heapPop h with
        | none => exact hOk
        | some th =>
          dsimp only
          split
          · exact ih _ _ _ hOk
          · split
            · exact closed_update_stampOk _ _ _ hOk
            · split
              · exact ih _ _ _
                  (latNodeExpand_stampOk C th.1.1 _ th.2 (closed_update_stampOk _ _ _ hOk))
              · exact ih _ _ _
                  (holeNodeExpand_stampOk C th.1.1 _ th.2 (closed_update_stampOk _ _ _ hOk))

/-- After the per-search stamp bump, no node is stamped with the new stamp. -/
theorem bumpStamp_fresh (st0 : AState) (hOk : StampOk st0) :
    ∀ n, (bumpStamp st0).gStamp n < (bumpStamp st0).stamp := by
  intro n
  unfold bumpStamp
  split
  · simp
  · have := hOk n
    simp only
    omega

theorem bumpStamp_stampOk (st0 : AState) (hOk : StampOk st0) :
    StampOk (bumpStamp st0) :=
  fun n => Nat.le_of_lt (bumpStamp_fresh st0 hOk n)

theorem seedStart_stampOk (st1 : AState) (s : ℕ) (hOk : StampOk st1) :
    StampOk (seedStart st1 s) := by
  intro n
  unfold seedStart
  by_cases hns : n = s
  · subst hns
    dsimp only
    rw [updFn_same]
  · simp only [updFn_other _ _ _ _ hns]; exact hOk n

/-- The seeded start state satisfies the search invariant: the only node
stamped with the current stamp is the start node itself. -/
theorem seedStart_searchInv (G : SearchGrid) (cm : CostModel) (st1 : AState) (s : ℕ)
    (hfresh : ∀ n, st1.gStamp n < st1.stamp) :
    SearchInv G cm s (seedStart st1 s) := by
  intro n hstamp hne
  unfold seedStart at hstamp
  simp only [updFn_other _ _ _ _ hne] at hstamp
  exact absurd hstamp (Nat.ne_of_lt (hfresh n))

/-! ## Path reconstruction yields a chain of valid edges -/

theorem reconstructAux_spec (G : SearchGrid) (cm : CostModel) (st : AState) (start : ℕ)
    (hInv : SearchInv G cm start st) :
    ∀ (fuel current : ℕ) (acc p : List ℕ),
      List.Chain' (graphEdge G cm) (current :: acc) →
      reconstructAux st start fuel current acc = some p →
      List.Chain' (graphEdge G cm) p ∧ p.head? = some start
        ∧ p.getLast? = (current :: acc).getLast? := by
  intro fuel
  induction fuel with
  | zero =>
    intro current acc p hchain hrun
    unfold reconstructAux at hrun
    split at hrun
    · rename_i hcs
      cases hrun
      subst hcs
      exact ⟨hchain, rfl, rfl⟩
    · cases hrun
  | succ fuel ih =>
    intro current acc p hchain hrun
    unfold reconstructAux at hrun
    split at hrun
    · rename_i hcs
      cases hrun
      subst hcs
      exact ⟨hchain, rfl, rfl⟩
    · rename_i hcs
      split at hrun
      · cases hrun
      · rename_i hstamp
        have hstamp2 : st.gStamp current = st.stamp := by
          by_cases hx : st.gStamp current = st.stamp
          · exact hx
          · exact absurd hx (by simpa using hstamp)
        have hedge : graphEdge G cm (st.parents current) current :=
          hInv current hstamp2 hcs
        have hchain2 : List.Chain' (graphEdge G cm)
            (st.parents current :: current :: acc) :=
          List.chain'_cons.mpr ⟨hedge, hchain⟩
        have := ih (st.parents current) (current :: acc) p hchain2 hrun
        refine ⟨this.1, this.2.1, ?_⟩
        rw [this.2.2, List.getLast?_cons_cons]

/-! ## C1 core: a found A* path is a chain of valid, oracle-cleared edges -/

theorem aStar_found_spec (G : SearchGrid) (cm : CostModel) (usage : ℕ → ℕ) (cap : ℕ)
    (mismatch : Bool) (fuel : ℕ) (st0 : AState) (s e : ℕ) (p : List ℕ)
    (hOk : StampOk st0)
    (hRun : (aStar G cm usage cap mismatch fuel st0 s e).1 = .found p) :
    List.Chain' (graphEdge G cm) p ∧ p.head? = some s ∧ p.getLast? = some e := by
  unfold aStar at hRun
  dsimp only at hRun
  split at hRun
  · cases hRun
  · have hInv2 : SearchInv G cm s (seedStart (bumpStamp st0) s) :=
      seedStart_searchInv G cm (bumpStamp st0) s (bumpStamp_fresh st0 hOk)
    split at hRun
    · cases hRun
    · split at hRun
      · cases hRun
      · rename_i hclosed
        generalize hL : aStarLoop
          { G := G, cm := cm, usage := usage, cap := cap, goal := e } mismatch fuel 0
          (seedStart (bumpStamp st0) s)
          (heapPush #[] s ((cm.heur e s : ℚ) : WithTop ℚ)) = r at hRun hclosed
        have hInvR : SearchInv G cm s r.1 := by
          have := aStarLoop_inv
            { G := G, cm := cm, usage := usage, cap := cap, goal := e } mismatch s fuel 0
            (seedStart (bumpStamp st0) s)
            (heapPush #[] s ((cm.heur e s : ℚ) : WithTop ℚ)) hInv2
          rwa [hL] at this
        cases hrec : reconstructAux r.1 s G.totalNodeCount e [] with
        | none => rw [hrec] at hRun; cases hRun
        | some q =>
          rw [hrec] at hRun
          have hq : q = p := by
            have := hRun
            simpa using this
          subst hq
          have := reconstructAux_spec G cm r.1 s hInvR G.totalNodeCount e [] q
            (by simp) hrec
          simpa using this

theorem aStar_stampOk (G : SearchGrid) (cm : CostModel) (usage : ℕ → ℕ) (cap : ℕ)
    (mismatch : Bool) (fuel : ℕ) (st0 : AState) (s e : ℕ)
    (hOk : StampOk st0) :
    StampOk (aStar G cm usage cap mismatch fuel st0 s e).2 := by
  unfold aStar
  dsimp only
  split
  · exact bumpStamp_stampOk st0 hOk
  · have h2 : StampOk (seedStart (bumpStamp st0) s) :=
      seedStart_stampOk (bumpStamp st0) s (bumpStamp_stampOk st0 hOk)
    have hL := aStarLoop_stampOk
      { G := G, cm := cm, usage := usage, cap := cap, goal := e } mismatch fuel 0
      (seedStart (bumpStamp st0) s)
      (heapPush #[] s ((cm.heur e s : ℚ) : WithTop ℚ)) h2
    split
    · exact hL
    · split
      · exact hL
      · cases reconstructAux
          (aStarLoop { G := G, cm := cm, usage := usage, cap := cap, goal := e } mismatch fuel 0
            (seedStart (bumpStamp st0) s)
            (heapPush #[] s ((cm.heur e s : ℚ) : WithTop ℚ))).1
          s G.totalNodeCount e [] with
        | none => exact hL
        | some q => exact hL

/-! ## Endpoint sampling (source lines 2598-2634, 3872-3904) -/

/-- `pool[Math.floor(Math.random() * pool.length)]` (source lines 2610, 3886):
`r` is one `Math.random()` draw in [0,1); the index is clamped for totality
(the runtime guarantees `floor(r * len) < len` for `0 <= r < 1`). -/
def randPick (pool : List ℕ) (r : ℚ) : ℕ :=
  pool.getD (min (r * pool.length).floor.toNat (pool.length - 1)) 0

/-- The rejection-sampling phase of `pickUnblocked` (source lines 2609-2614):
up to `maxPickAttempts` random draws, skipping the avoided value and values
at the usage cap.  Returns the pick and the advanced random cursor. -/
def pickUnblockedLoop (pool : List ℕ) (blocked : ℕ → Bool) (avoid : Option ℕ)
    (rand : ℕ → ℚ) : ℕ → ℕ → Option ℕ × ℕ
  | 0, rk => (none, rk)
  | fuel + 1, rk =>
    let v := randPick pool (rand rk)
    if avoid = some v then pickUnblockedLoop pool blocked avoid rand fuel (rk + 1)
    else if blocked v then pickUnblockedLoop pool blocked avoid rand fuel (rk + 1)
    else (some v, rk + 1)

/-- `pickUnblocked` (source lines 2607-2622): rejection sampling with
`max(10, 2 * pool.length)` attempts, then a deterministic linear scan. -/
def pickUnblocked (pool : List ℕ) (blocked : ℕ → Bool) (avoid : Option ℕ)
    (rand : ℕ → ℚ) (rk : ℕ) : Option ℕ × ℕ :=
  match pickUnblockedLoop pool blocked avoid rand (max 10 (2 * pool.length)) rk with
  | (some v, rk2) => (some v, rk2)
  | (none, rk2) =>
    (pool.find? (fun v => !(decide (avoid = some v)) && !blocked v), rk2)

/-- `selectPair` (source lines 2598-2634): pick an unblocked start, then an
end — from the opposite pool without exclusion in two-sided mode, from the
same composite pool excluding the start otherwise. -/
def selectPair (startPool endPool : List ℕ) (useSides : Bool) (usage : ℕ → ℕ)
    (cap : ℕ) (rand : ℕ → ℚ) (rk : ℕ) : Option (ℕ × ℕ) × ℕ :=
  if startPool.length = 0 ∨ endPool.length = 0 then (none, rk)
  else
    let blocked := fun v => decide (cap ≤ usage v)
    match pickUnblocked startPool blocked none rand rk with
    | (none, rk1) => (none, rk1)
    | (some s, rk1) =>
      if useSides then
        match pickUnblocked endPool blocked none rand rk1 with
        | (none, rk2) => (none, rk2)
        | (some e2, rk2) => (some (s, e2), rk2)
      else
        match pickUnblocked endPool blocked (some s) rand rk1 with
        | (none, rk2) => (none, rk2)
        | (some e2, rk2) => (some (s, e2), rk2)

/-- The rejection-sampling phase of `pickDistinct` (source lines 3885-3892):
random draws collecting distinct unblocked values.  Returns picks, the used
set, and the advanced cursor. -/
def pickDistinctLoop (pool : List ℕ) (blocked : ℕ → Bool) (rand : ℕ → ℚ)
    (count : ℕ) : ℕ → List ℕ → List ℕ → ℕ → (List ℕ × List ℕ × ℕ)
  | 0, used, picks, rk => (picks, used, rk)
  | fuel + 1, used, picks, rk =>
    if picks.length < count then
      let v := randPick pool (rand rk)
      if !used.contains v && !blocked v then
        pickDistinctLoop pool blocked rand count fuel (v :: used) (picks ++ [v]) (rk + 1)
      else pickDistinctLoop pool blocked rand count fuel used picks (rk + 1)
    else (picks, used, rk)

/-- The fallback linear scan of `pickDistinct` (source lines 3893-3901). -/
def pickDistinctScan (blocked : ℕ → Bool) (count : ℕ) :
    List ℕ → List ℕ → List ℕ → List ℕ
  | [], _, picks => picks
  | v :: rest, used, picks =>
    if picks.length < count then
      if !used.contains v && !blocked v then
        pickDistinctScan blocked count rest (v :: used) (picks ++ [v])
      else pickDistinctScan blocked count rest used picks
    else picks

/-- `pickDistinct` (source lines 3872-3904). -/
def pickDistinct (pool : List ℕ) (count : ℕ) (usage : ℕ → ℕ) (cap : ℕ)
    (rand : ℕ → ℚ) (rk : ℕ) : Option (List ℕ) × ℕ :=
  if pool.length < count then (none, rk)
  else
    let blocked := fun v => decide (cap ≤ usage v)
    match pickDistinctLoop pool blocked rand count (max 10 (2 * pool.length)) [] [] rk with
    | (picks, used, rk2) =>
      let picks2 :=
        if picks.length < count then pickDistinctScan blocked count pool used picks
        else picks
      if picks2.length < count then (none, rk2) else (some picks2, rk2)

/-! ## Segment merging, usage blocking, loop building (source lines 3906-3946) -/

/-- `mergeSegments` (source lines 3906-3916): the first segment whole, every
later segment without its first node. -/
def mergeSegments (segments : List (List ℕ)) : List ℕ :=
  match segments with
  | [] => []
  | s :: rest => s ++ (rest.map (List.drop 1)).flatten

/-- `blockPath` (source lines 3918-3925): increment the usage counter of every
node on the path, saturating at the cap. -/
def blockPath (usage : ℕ → ℕ) (cap : ℕ) (path : List ℕ) : ℕ → ℕ :=
  path.foldl (fun u idx => updFn u idx (if cap ≤ u idx + 1 then cap else u idx + 1)) usage

/-- Outcome of running a sequence of loop segments: either every search
found a path (collecting the segments in order), or the first non-found
search result. -/
inductive SegsResult where
  | ok (segs : List (List ℕ))
  | stopped (r : PathResult)

/-- The chained segment searches of `buildLoop` (source lines 3936-3943):
run `aStar` on each endpoint pair in order, threading the scratch state, and
short-circuit on the first result that is not `found` — exactly the source's
`if (segN.status !== 'found') return segN` cascade. -/
def runSegments (G : SearchGrid) (cm : CostModel) (usage : ℕ → ℕ) (cap : ℕ)
    (mismatch : Bool) (aFuel : ℕ) :
    List (ℕ × ℕ) → AState → SegsResult × AState
  | [], st => (SegsResult.ok [], st)
  | pr :: rest, st =>
    match aStar G cm usage cap mismatch aFuel st pr.1 pr.2 with
    | (PathResult.found p, st1) =>
      match runSegments G cm usage cap mismatch aFuel rest st1 with
      | (SegsResult.ok ps, st2) => (SegsResult.ok (p :: ps), st2)
      | (r, st2) => (r, st2)
    | (r, st1) => (SegsResult.stopped r, st1)

/-- `buildLoop` (source lines 3927-3946): pick two distinct nodes from each
side pool and chain four searches a1→a2→b1→b2→a1; any failure or
cancellation aborts the attempt with that status.  Threads the scratch state
and the random cursor. -/
def buildLoop (G : SearchGrid) (cm : CostModel) (usage : ℕ → ℕ) (cap : ℕ)
    (mismatch : Bool) (aFuel : ℕ) (st : AState) (startPool endPool : List ℕ)
    (rand : ℕ → ℚ) (rk : ℕ) : PathResult × AState × ℕ :=
  match pickDistinct startPool 2 usage cap rand rk with
  | (sideA, rk1) =>
    match pickDistinct endPool 2 usage cap rand rk1 with
    | (sideB, rk2) =>
      match sideA, sideB with
      | some pa, some pb =>
        match runSegments G cm usage cap mismatch aFuel
            [(pa.getD 0 0, pa.getD 1 0), (pa.getD 1 0, pb.getD 0 0),
             (pb.getD 0 0, pb.getD 1 0), (pb.getD 1 0, pa.getD 0 0)] st with
        | (SegsResult.ok segs, st4) =>
          (PathResult.found (mergeSegments segs), st4, rk2)
        | (SegsResult.stopped r, st4) => (r, st4, rk2)
      | _, _ => (PathResult.failed, st, rk2)

/-! ## The placement loop (source lines 3975-4023) -/

/-- The mutable state of the placement loop.  `pairStart`/`pairEnd` model the
-1 sentinels as `none`; `calls` is pure instrumentation counting search
invocations (it influences nothing), and `emitted` records each accepted path
in emission order. -/
structure LoopState where
  placed : ℕ
  pairTries : ℕ
  pairStart : Option ℕ
  pairEnd : Option ℕ
  attempts : ℕ
  calls : ℕ
  usage : ℕ → ℕ
  st : AState
  rk : ℕ
  emitted : List (List ℕ)

/-- Why the placement loop stopped. -/
inductive LoopExit where
  | reachedMaxPaths
  | outOfAttempts
  | noPair
  | cancelledExit
  | fuelOut
deriving DecidableEq

/-- The pair bookkeeping of the placement loop's single-path mode (source
lines 3989-3995): when no pair is active or the per-pair retry budget is
exhausted, draw a fresh pair via `selectPair` (recording it with
`pairTries = 0`), else keep the current pair.  Returns the pair (`none` when
selection failed, which breaks the loop) and the updated state. -/
def pairPick (startPool endPool : List ℕ) (useSides : Bool) (cap maxTries : ℕ)
    (rand : ℕ → ℚ) (s : LoopState) : Option (ℕ × ℕ) × LoopState :=
  if s.pairStart = none ∨ s.pairEnd = none ∨ maxTries ≤ s.pairTries then
    match selectPair startPool endPool useSides s.usage cap rand s.rk with
    | (none, rk2) => (none, { s with rk := rk2 })
    | (some pr, rk2) =>
      (some pr, { s with pairStart := some pr.1, pairEnd := some pr.2,
                         pairTries := 0, rk := rk2 })
  else (some (s.pairStart.getD 0, s.pairEnd.getD 0), s)

/-- The placement loop (source lines 3975-4023), fuelled.  Per iteration, in
source order: the `placed < maxPaths` while-guard, the token check, the
attempt budget check (`maxAttempts = max(1, maxPaths * maxTries)`, line
3980), then one `buildLoop` (two-sided mode) or one `aStar` on the current
or freshly selected pair (single mode).  A found path is usage-blocked and
emitted; a failure increments `attempts` (and `pairTries` in single mode);
a selection failure or a cancelled search ends the loop. -/
def placementLoop (G : SearchGrid) (cm : CostModel) (cap : ℕ) (mismatch : Bool)
    (aFuel : ℕ) (rand : ℕ → ℚ) (maxPaths maxTries : ℕ)
    (startPool endPool : List ℕ) (useLoopPaths useSides : Bool) :
    ℕ → LoopState → LoopState × LoopExit
  | 0, s => (s, LoopExit.fuelOut)
  | fuel + 1, s =>
    if maxPaths ≤ s.placed then (s, LoopExit.reachedMaxPaths)
    else if mismatch then (s, LoopExit.cancelledExit)
    else if max 1 (maxPaths * maxTries) ≤ s.attempts then (s, LoopExit.outOfAttempts)
    else if useLoopPaths then
      match buildLoop G cm s.usage cap mismatch aFuel s.st startPool endPool rand s.rk with
      | (PathResult.cancelled, st2, rk2) =>
        ({ s with st := st2, rk := rk2, calls := s.calls + 1 }, LoopExit.cancelledExit)
      | (PathResult.found p, st2, rk2) =>
        placementLoop G cm cap mismatch aFuel rand maxPaths maxTries startPool endPool
          useLoopPaths useSides fuel
          { s with st := st2, rk := rk2, calls := s.calls + 1,
                   usage := blockPath s.usage cap p,
                   emitted := s.emitted ++ [p], placed := s.placed + 1 }
      | (PathResult.failed, st2, rk2) =>
        placementLoop G cm cap mismatch aFuel rand maxPaths maxTries startPool endPool
          useLoopPaths useSides fuel
          { s with st := st2, rk := rk2, calls := s.calls + 1,
                   attempts := s.attempts + 1 }
    else
      match pairPick startPool endPool useSides cap maxTries rand s with
      | (none, s1) => (s1, LoopExit.noPair)
      | (some pr, s1) =>
        match aStar G cm s1.usage cap mismatch aFuel s1.st pr.1 pr.2 with
        | (PathResult.cancelled, st2) =>
          ({ s1 with st := st2, calls := s1.calls + 1 }, LoopExit.cancelledExit)
        | (PathResult.found p, st2) =>
          placementLoop G cm cap mismatch aFuel rand maxPaths maxTries startPool endPool
            useLoopPaths useSides fuel
            { s1 with st := st2, calls := s1.calls + 1,
                      usage := blockPath s1.usage cap p,
                      emitted := s1.emitted ++ [p], placed := s1.placed + 1,
                      pairStart := none, pairEnd := none, pairTries := 0 }
        | (PathResult.failed, st2) =>
          placementLoop G cm cap mismatch aFuel rand maxPaths maxTries startPool endPool
            useLoopPaths useSides fuel
            { s1 with st := st2, calls := s1.calls + 1,
                      pairTries := s1.pairTries + 1,
                      attempts := s1.attempts + 1 }

/-- The loop state at build start (usage table zeroed, fresh scratch state,
random cursor 0). -/
def LoopState.initial : LoopState :=
  { placed := 0, pairTries := 0, pairStart := none, pairEnd := none,
    attempts := 0, calls := 0, usage := fun _ => 0, st := AState.initial,
    rk := 0, emitted := [] }

/-! ## Gluing found segments into a loop path -/

theorem chain_glue {R : ℕ → ℕ → Prop} (xs ys : List ℕ)
    (hxs : List.Chain' R xs) (hys : List.Chain' R ys)
    (hlink : xs.getLast? = ys.head?) :
    List.Chain' R (xs ++ ys.drop 1) := by
  cases ys with
  | nil => simpa using hxs
  | cons y t =>
    simp only [List.drop_succ_cons, List.drop_zero]
    apply List.Chain'.append hxs hys.tail
    intro x hx z hz
    have hxy : y = x := by
      rw [hlink] at hx
      simpa using hx
    subst hxy
    cases t with
    | nil => simp at hz
    | cons b l =>
      have hzb : b = z := by simpa using hz
      subst hzb
      exact (List.chain'_cons.mp hys).1

theorem glue_getLast {xs ys : List ℕ} (hlink : xs.getLast? = ys.head?) :
    (xs ++ ys.drop 1).getLast? = ys.getLast? := by
  cases ys with
  | nil =>
    have : xs = [] := by simpa using hlink
    subst this; rfl
  | cons y t =>
    cases t with
    | nil =>
      simp only [List.drop_succ_cons, List.drop_zero, List.append_nil]
      simpa using hlink
    | cons b l =>
      simp only [List.drop_succ_cons, List.drop_zero, List.getLast?_cons_cons]
      rw [List.getLast?_append]
      rcases hbl : (b :: l).getLast? with _ | w
      · simp [List.getLast?_eq_none_iff] at hbl
      · rfl

/-! ## Segment-run facts -/

theorem runSegments_stampOk (G : SearchGrid) (cm : CostModel) (usage : ℕ → ℕ) (cap : ℕ)
    (mismatch : Bool) (aFuel : ℕ) :
    ∀ (pairs : List (ℕ × ℕ)) (st : AState), StampOk st →
      StampOk (runSegments G cm usage cap mismatch aFuel pairs st).2 := by
  intro pairs
  induction pairs with
  | nil => intro st h; exact h
  | cons pr rest ih =>
    intro st h
    simp only [runSegments]
    split
    · rename_i p1 st1 heq1
      have h1 : StampOk st1 := by
        have := aStar_stampOk G cm usage cap mismatch aFuel st pr.1 pr.2 h
        rwa [heq1] at this
      split
      · rename_i segs st2 heq2
        have := ih st1 h1
        rwa [heq2] at this
      · rename_i r st2 heq2
        have := ih st1 h1
        rwa [heq2] at this
    · rename_i r st1 hnf heq1
      have := aStar_stampOk G cm usage cap mismatch aFuel st pr.1 pr.2 h
      rwa [heq1] at this

/-- The short-circuit status of a segment run is never a `found`. -/
theorem runSegments_stopped_not_found (G : SearchGrid) (cm : CostModel) (usage : ℕ → ℕ)
    (cap : ℕ) (mismatch : Bool) (aFuel : ℕ) :
    ∀ (pairs : List (ℕ × ℕ)) (st : AState) (p : List ℕ),
      (runSegments G cm usage cap mismatch aFuel pairs st).1
        ≠ SegsResult.stopped (PathResult.found p) := by
  intro pairs
  induction pairs with
  | nil => intro st p h; simp [runSegments] at h
  | cons pr rest ih =>
    intro st p h
    simp only [runSegments] at h
    split at h
    · rename_i p1 st1 heq1
      split at h
      · rename_i segs st2 heq2
        simp at h
      · rename_i r st2 heq2
        simp only at h
        subst h
        have := ih st1 p
        rw [heq2] at this
        exact this rfl
    · rename_i r st1 hnf heq1
      simp only [SegsResult.stopped.injEq] at h
      subst h
      exact hnf p rfl

/-- A fully successful segment run pairs each endpoint pair with a found
path that is a valid-edge chain from its start to its end. -/
theorem runSegments_spec (G : SearchGrid) (cm : CostModel) (usage : ℕ → ℕ) (cap : ℕ)
    (mismatch : Bool) (aFuel : ℕ) :
    ∀ (pairs : List (ℕ × ℕ)) (st : AState) (segs : List (List ℕ)) (st' : AState),
      StampOk st →
      runSegments G cm usage cap mismatch aFuel pairs st = (SegsResult.ok segs, st') →
      List.Forall₂ (fun pr seg => List.Chain' (graphEdge G cm) seg
          ∧ List.head? seg = some pr.1 ∧ List.getLast? seg = some pr.2) pairs segs := by
  intro pairs
  induction pairs with
  | nil =>
    intro st segs st' h hRun
    simp only [runSegments, Prod.mk.injEq, SegsResult.ok.injEq] at hRun
    rw [← hRun.1]
    exact List.Forall₂.nil
  | cons pr rest ih =>
    intro st segs st' h hRun
    simp only [runSegments] at hRun
    split at hRun
    · rename_i p1 st1 heq1
      have h1 : StampOk st1 := by
        have := aStar_stampOk G cm usage cap mismatch aFuel st pr.1 pr.2 h
        rwa [heq1] at this
      have hfound := aStar_found_spec G cm usage cap mismatch aFuel st pr.1 pr.2 p1 h
        (by rw [heq1])
      split at hRun
      · rename_i segs1 st2 heq2
        simp only [Prod.mk.injEq, SegsResult.ok.injEq] at hRun
        rw [← hRun.1]
        exact List.Forall₂.cons hfound (ih st1 segs1 st2 h1 heq2)
      · rename_i sres st2 hnf heq2
        simp only [Prod.mk.injEq] at hRun
        exact (hnf segs hRun.1).elim
    · rename_i r st1 hnf heq1
      simp at hRun

/-- Any `buildLoop` outcome leaves a stamp-sane scratch state. -/
theorem buildLoop_stampOk (G : SearchGrid) (cm : CostModel) (usage : ℕ → ℕ) (cap : ℕ)
    (mismatch : Bool) (aFuel : ℕ) (st : AState) (startPool endPool : List ℕ)
    (rand : ℕ → ℚ) (rk : ℕ) (hOk : StampOk st) :
    StampOk (buildLoop G cm usage cap mismatch aFuel st startPool endPool rand rk).2.1 := by
  unfold buildLoop
  split
  split
  split
  · rename_i xA rkA xB rkB sA sB pa pb heqA heqB
    split
    · rename_i segs st4 heq
      have := runSegments_stampOk G cm usage cap mismatch aFuel
        [(pa.getD 0 0, pa.getD 1 0), (pa.getD 1 0, pb.getD 0 0),
         (pb.getD 0 0, pb.getD 1 0), (pb.getD 1 0, pa.getD 0 0)] st hOk
      rwa [heq] at this
    · rename_i r st4 heq
      have := runSegments_stampOk G cm usage cap mismatch aFuel
        [(pa.getD 0 0, pa.getD 1 0), (pa.getD 1 0, pb.getD 0 0),
         (pb.getD 0 0, pb.getD 1 0), (pb.getD 1 0, pa.getD 0 0)] st hOk
      rwa [heq] at this
  · exact hOk

/-- A loop built by `buildLoop` is a chain of valid graph edges whose first
node recurs as its last node. -/
theorem buildLoop_found_spec (G : SearchGrid) (cm : CostModel) (usage : ℕ → ℕ) (cap : ℕ)
    (mismatch : Bool) (aFuel : ℕ) (st : AState) (startPool endPool : List ℕ)
    (rand : ℕ → ℚ) (rk : ℕ) (p : List ℕ) (st' : AState) (rk' : ℕ)
    (hOk : StampOk st)
    (hRun : buildLoop G cm usage cap mismatch aFuel st startPool endPool rand rk
      = (PathResult.found p, st', rk')) :
    List.Chain' (graphEdge G cm) p ∧ p.head? = p.getLast? ∧ p ≠ [] := by
  unfold buildLoop at hRun
  split at hRun
  split at hRun
  split at hRun
  · rename_i xA rkA xB rkB sA sB pa pb heqA heqB
    split at hRun
    · rename_i x0 segs st4 heq
      have hF := runSegments_spec G cm usage cap mismatch aFuel
        [(pa.getD 0 0, pa.getD 1 0), (pa.getD 1 0, pb.getD 0 0),
         (pb.getD 0 0, pb.getD 1 0), (pb.getD 1 0, pa.getD 0 0)] st segs st4 hOk heq
      simp only [Prod.mk.injEq, PathResult.found.injEq] at hRun
      obtain ⟨hp, -⟩ := hRun
      subst hp
      rw [List.forall₂_cons_left_iff] at hF
      obtain ⟨p1, tail1, ⟨hc1, hh1, hl1⟩, hF, rfl⟩ := hF
      rw [List.forall₂_cons_left_iff] at hF
      obtain ⟨p2, tail2, ⟨hc2, hh2, hl2⟩, hF, rfl⟩ := hF
      rw [List.forall₂_cons_left_iff] at hF
      obtain ⟨p3, tail3, ⟨hc3, hh3, hl3⟩, hF, rfl⟩ := hF
      rw [List.forall₂_cons_left_iff] at hF
      obtain ⟨p4, tail4, ⟨hc4, hh4, hl4⟩, hF, rfl⟩ := hF
      rw [List.forall₂_nil_left_iff] at hF
      subst hF
      have hq2 : List.Chain' (graphEdge G cm) (p1 ++ p2.drop 1) :=
        chain_glue p1 p2 hc1 hc2 (by rw [hl1, hh2])
      have hq2l : (p1 ++ p2.drop 1).getLast? = p2.getLast? :=
        glue_getLast (by rw [hl1, hh2])
      have hq3 : List.Chain' (graphEdge G cm) ((p1 ++ p2.drop 1) ++ p3.drop 1) :=
        chain_glue _ p3 hq2 hc3 (by rw [hq2l, hl2, hh3])
      have hq3l : ((p1 ++ p2.drop 1) ++ p3.drop 1).getLast? = p3.getLast? :=
        glue_getLast (by rw [hq2l, hl2, hh3])
      have hq4 : List.Chain' (graphEdge G cm)
          (((p1 ++ p2.drop 1) ++ p3.drop 1) ++ p4.drop 1) :=
        chain_glue _ p4 hq3 hc4 (by rw [hq3l, hl3, hh4])
      have hq4l : (((p1 ++ p2.drop 1) ++ p3.drop 1) ++ p4.drop 1).getLast? = p4.getLast? :=
        glue_getLast (by rw [hq3l, hl3, hh4])
      have hmerge : mergeSegments [p1, p2, p3, p4]
          = ((p1 ++ p2.drop 1) ++ p3.drop 1) ++ p4.drop 1 := by
        simp [mergeSegments, List.append_assoc]
      rw [hmerge]
      refine ⟨hq4, ?_, ?_⟩
      · rcases p1 with _ | ⟨x, t⟩
        · simp at hh1
        · have hx : x = pa.getD 0 0 := by simpa using hh1
          subst hx
          rw [hq4l, hl4]
          simp
      · rcases p1 with _ | ⟨x, t⟩
        · simp at hh1
        · simp
    · rename_i x0 r st4 heq
      simp only [Prod.mk.injEq] at hRun
      have hne := runSegments_stopped_not_found G cm usage cap mismatch aFuel
        [(pa.getD 0 0, pa.getD 1 0), (pa.getD 1 0, pb.getD 0 0),
         (pb.getD 0 0, pb.getD 1 0), (pb.getD 1 0, pa.getD 0 0)] st p
      apply absurd _ hne
      rw [heq, hRun.1]
  · simp at hRun

theorem pairPick_fields (startPool endPool : List ℕ) (useSides : Bool)
    (cap maxTries : ℕ) (rand : ℕ → ℚ) (s : LoopState) :
    (pairPick startPool endPool useSides cap maxTries rand s).2.emitted = s.emitted
      ∧ (pairPick startPool endPool useSides cap maxTries rand s).2.st = s.st
      ∧ (pairPick startPool endPool useSides cap maxTries rand s).2.usage = s.usage
      ∧ (pairPick startPool endPool useSides cap maxTries rand s).2.placed = s.placed
      ∧ (pairPick startPool endPool useSides cap maxTries rand s).2.attempts = s.attempts := by
  unfold pairPick
  split
  · split <;> exact ⟨rfl, rfl, rfl, rfl, rfl⟩
  · exact ⟨rfl, rfl, rfl, rfl, rfl⟩

/-- Every path in the placement loop's emission list is a chain of valid
(oracle-cleared where applicable) graph edges, provided the incoming state
satisfies the same and its scratch state is stamp-sane. -/
theorem placementLoop_emitted (G : SearchGrid) (cm : CostModel) (cap : ℕ) (mismatch : Bool)
    (aFuel : ℕ) (rand : ℕ → ℚ) (maxPaths maxTries : ℕ)
    (startPool endPool : List ℕ) (useLoopPaths useSides : Bool) :
    ∀ (fuel : ℕ) (s : LoopState),
      StampOk s.st → (∀ p ∈ s.emitted, List.Chain' (graphEdge G cm) p) →
      ∀ p ∈ (placementLoop G cm cap mismatch aFuel rand maxPaths maxTries
          startPool endPool useLoopPaths useSides fuel s).1.emitted,
        List.Chain' (graphEdge G cm) p := by
  intro fuel
  induction fuel with
  | zero => intro s hOk hEm; simpa [placementLoop] using hEm
  | succ fuel ih =>
    intro s hOk hEm
    simp only [placementLoop]
    split
    · exact hEm
    split
    · exact hEm
    split
    · exact hEm
    split
    · split
      · exact hEm
      · rename_i q st2 rk2 heq
        apply ih
        · have := buildLoop_stampOk G cm s.usage cap mismatch aFuel s.st startPool endPool
            rand s.rk hOk
          rw [heq] at this
          exact this
        · intro p hp
          rcases List.mem_append.mp hp with h | h
          · exact hEm p h
          · have hq := buildLoop_found_spec G cm s.usage cap mismatch aFuel s.st
              startPool endPool rand s.rk q st2 rk2 hOk heq
            have hpq : p = q := by simpa using h
            rw [hpq]
            exact hq.1
      · rename_i st2 rk2 heq
        apply ih
        · have := buildLoop_stampOk G cm s.usage cap mismatch aFuel s.st startPool endPool
            rand s.rk hOk
          rw [heq] at this
          exact this
        · exact hEm
    · split
      · rename_i s1 heq
        intro p hp
        have h2 : (pairPick startPool endPool useSides cap maxTries rand s).2 = s1 :=
          congrArg Prod.snd heq
        rw [← h2] at hp
        rw [(pairPick_fields startPool endPool useSides cap maxTries rand s).1] at hp
        exact hEm p hp
      · rename_i pr s1 heq
        have h2 : (pairPick startPool endPool useSides cap maxTries rand s).2 = s1 :=
          congrArg Prod.snd heq
        have hfields := pairPick_fields startPool endPool useSides cap maxTries rand s
        rw [h2] at hfields
        have hst : s1.st = s.st := hfields.2.1
        have hem1 : s1.emitted = s.emitted := hfields.1
        have hOk1 : StampOk s1.st := by rw [hst]; exact hOk
        split
        · intro p hp
          have hp2 : p ∈ s1.emitted := hp
          rw [hem1] at hp2
          exact hEm p hp2
        · rename_i q st2 heq2
          apply ih
          · have := aStar_stampOk G cm s1.usage cap mismatch aFuel s1.st pr.1 pr.2 hOk1
            rw [heq2] at this
            exact this
          · intro p hp
            rcases List.mem_append.mp hp with h | h
            · rw [hem1] at h
              exact hEm p h
            · have hq := aStar_found_spec G cm s1.usage cap mismatch aFuel s1.st pr.1 pr.2 q
                hOk1 (by rw [heq2])
              have hpq : p = q := by simpa using h
              rw [hpq]
              exact hq.1
        · rename_i st2 heq2
          apply ih
          · have := aStar_stampOk G cm s1.usage cap mismatch aFuel s1.st pr.1 pr.2 hOk1
            rw [heq2] at this
            exact this
          · intro p hp
            have hp2 : p ∈ s1.emitted := hp
            rw [hem1] at hp2
            exact hEm p hp2

/-- A tiny concrete build instance for evaluation: a single row of three
cells (four lattice vertices 0..3, countY = countZ = 0), open domain edges,
no hole cells, an all-clear oracle, unit edge costs and a zero heuristic. -/
def witGrid : SearchGrid :=
  { countX := 3, countY := 0, countZ := 0, edgesOpenX := true, edgesOpenZ := true,
    gridX := 0, gridZ := 0, holeCells := [] }

def witCm : CostModel :=
  { oracle := fun _ _ => false, cost := fun _ _ => 1, heur := fun _ _ => 0 }

/-- C1: for every build (any search grid, oracle/cost model, usage cap,
cancellation flag, node pools, mode flags, random stream and fuel), every
path the placement loop accepts and emits is a chain of valid search-graph
edges: each consecutive node pair is a 26-neighborhood lattice edge that
does not cross a sealed domain boundary, a lattice-to-hole-center edge, a
hole-center corner edge, or a hole-center vertical edge, and every edge kind
the graph rules subject to collision testing is reported unblocked by the
oracle. -/
theorem c1_accepted_paths_use_validated_edges
    (G : SearchGrid) (cm : CostModel) (cap : ℕ) (mismatch : Bool) (aFuel : ℕ)
    (rand : ℕ → ℚ) (maxPaths maxTries : ℕ) (startPool endPool : List ℕ)
    (useLoopPaths useSides : Bool) (fuel : ℕ) :
    ∀ p ∈ (placementLoop G cm cap mismatch aFuel rand maxPaths maxTries
        startPool endPool useLoopPaths useSides fuel LoopState.initial).1.emitted,
      List.Chain' (graphEdge G cm) p :=
  placementLoop_emitted G cm cap mismatch aFuel rand maxPaths maxTries
    startPool endPool useLoopPaths useSides fuel LoopState.initial
    stampOk_initial (by intro p hp; simp [LoopState.initial] at hp)

theorem c1_witness :
    ([0, 1, 2, 3, 2, 1, 0] ∈ (placementLoop witGrid witCm 1 false 64 (fun _ => 0) 1 1
        [0, 1] [2, 3] true true 8 LoopState.initial).1.emitted)
      ∧ List.Chain' (graphEdge witGrid witCm) [0, 1, 2, 3, 2, 1, 0] :=
  ⟨by decide,
   c1_accepted_paths_use_validated_edges witGrid witCm 1 false 64 (fun _ => 0) 1 1
     [0, 1] [2, 3] true true 8 [0, 1, 2, 3, 2, 1, 0] (by decide)⟩

/-- `blockPath` saturates at the cap: if every entry of the usage table is at
most `cap`, it stays so after blocking any path. -/
theorem blockPath_le_cap (cap : ℕ) :
    ∀ (path : List ℕ) (usage : ℕ → ℕ), (∀ n, usage n ≤ cap) →
      ∀ n, blockPath usage cap path n ≤ cap := by
  intro path
  induction path with
  | nil => intro usage hU n; exact hU n
  | cons a rest ih =>
    intro usage hU n
    have hstep : ∀ m, updFn usage a (if cap ≤ usage a + 1 then cap else usage a + 1) m ≤ cap := by
      intro m
      by_cases hm : m = a
      · subst hm
        rw [updFn_same]
        split
        · exact le_refl cap
        · rename_i hlt; omega
      · rw [updFn_other _ _ _ _ hm]
        exact hU m
    exact ih _ hstep n

/-- Through the whole placement loop the usage table never exceeds the cap. -/
theorem placementLoop_usage (G : SearchGrid) (cm : CostModel) (cap : ℕ) (mismatch : Bool)
    (aFuel : ℕ) (rand : ℕ → ℚ) (maxPaths maxTries : ℕ)
    (startPool endPool : List ℕ) (useLoopPaths useSides : Bool) :
    ∀ (fuel : ℕ) (s : LoopState), (∀ n, s.usage n ≤ cap) →
      ∀ n, (placementLoop G cm cap mismatch aFuel rand maxPaths maxTries
          startPool endPool useLoopPaths useSides fuel s).1.usage n ≤ cap := by
  intro fuel
  induction fuel with
  | zero => intro s hU n; exact hU n
  | succ fuel ih =>
    intro s hU
    simp only [placementLoop]
    split
    · exact hU
    split
    · exact hU
    split
    · exact hU
    split
    · split
      · exact hU
      · rename_i q st2 rk2 heq
        exact ih _ (blockPath_le_cap cap q s.usage hU)
      · rename_i st2 rk2 heq
        exact ih _ hU
    · split
      · rename_i s1 heq
        have h2 : (pairPick startPool endPool useSides cap maxTries rand s).2 = s1 :=
          congrArg Prod.snd heq
        have hu1 : s1.usage = s.usage := by
          rw [← h2]
          exact (pairPick_fields startPool endPool useSides cap maxTries rand s).2.2.1
        intro n
        have hn : s1.usage n ≤ cap := by rw [hu1]; exact hU n
        exact hn
      · rename_i pr s1 heq
        have h2 : (pairPick startPool endPool useSides cap maxTries rand s).2 = s1 :=
          congrArg Prod.snd heq
        have hu1 : s1.usage = s.usage := by
          rw [← h2]
          exact (pairPick_fields startPool endPool useSides cap maxTries rand s).2.2.1
        have hU1 : ∀ n, s1.usage n ≤ cap := by rw [hu1]; exact hU
        split
        · intro n
          exact hU1 n
        · rename_i q st2 heq2
          exact ih _ (blockPath_le_cap cap q s1.usage hU1)
        · rename_i st2 heq2
          exact ih _ hU1

/-- C2 counterexample: with usage cap 1 in two-sided loop mode, the build
accepts the single merged loop path [0,1,2,3,2,1,0], in which node 1 (like
every node except 3) appears twice across the build's accepted paths,
exceeding the cap of 1. -/
theorem c2_counterexample :
    (placementLoop witGrid witCm 1 false 64 (fun _ => 0) 1 1 [0, 1] [2, 3] true true 8
        LoopState.initial).1.emitted = [[0, 1, 2, 3, 2, 1, 0]]
      ∧ 1 < (((placementLoop witGrid witCm 1 false 64 (fun _ => 0) 1 1 [0, 1] [2, 3] true true 8
          LoopState.initial).1.emitted.map fun p => p.count 1).sum) := by
  constructor
  · decide
  · decide

/-- C2 (amended): what the code actually enforces is the saturating per-node
usage counter: after any build (any grid, model, pools, modes, fuel) every
node's recorded usage is at most the cap.  The appearance count across
accepted paths can still exceed the cap, because a merged loop path revisits
nodes and `blockPath` saturates instead of rejecting. -/
theorem c2_usage_counter_never_exceeds_cap
    (G : SearchGrid) (cm : CostModel) (cap : ℕ) (mismatch : Bool) (aFuel : ℕ)
    (rand : ℕ → ℚ) (maxPaths maxTries : ℕ) (startPool endPool : List ℕ)
    (useLoopPaths useSides : Bool) (fuel : ℕ) :
    ∀ n, (placementLoop G cm cap mismatch aFuel rand maxPaths maxTries
        startPool endPool useLoopPaths useSides fuel LoopState.initial).1.usage n ≤ cap :=
  placementLoop_usage G cm cap mismatch aFuel rand maxPaths maxTries startPool endPool
    useLoopPaths useSides fuel LoopState.initial (fun _ => Nat.zero_le cap)

/-- Without a token mismatch the main loop can never signal cancellation:
the poll branch is guarded by `mismatch`. -/
theorem aStarLoop_not_cancelled (C : SCtx) :
    ∀ (fuel iterations : ℕ) (st : AState) (h : Array HeapEntry),
      (aStarLoop C false fuel iterations st h).2 = false := by
  intro fuel
  induction fuel with
  | zero => intro it st h; rfl
  | succ fuel ih =>
    intro it st h
    simp only [aStarLoop]
    split
    · rfl
    · split
      · rename_i hc
        exact absurd hc.2 (by simp)
      · split
        · rfl
        · split
          · exact ih _ _ _
          · split
            · rfl
            · split
              · exact ih _ _ _
              · exact ih _ _ _

/-- Without a token mismatch `aStar` never returns `cancelled`. -/
theorem aStar_not_cancelled (G : SearchGrid) (cm : CostModel) (usage : ℕ → ℕ)
    (cap : ℕ) (aFuel : ℕ) (st0 : AState) (s e : ℕ) :
    (aStar G cm usage cap false aFuel st0 s e).1 ≠ PathResult.cancelled := by
  simp only [aStar, aStarLoop_not_cancelled]
  split
  · simp
  · split
    · simp_all
    · split
      · simp
      · split <;> simp

/-- Without a token mismatch no segment search stops the chain with a
`cancelled` status. -/
theorem runSegments_not_cancelled (G : SearchGrid) (cm : CostModel) (usage : ℕ → ℕ)
    (cap : ℕ) (aFuel : ℕ) :
    ∀ (prs : List (ℕ × ℕ)) (st : AState),
      (runSegments G cm usage cap false aFuel prs st).1
        ≠ SegsResult.stopped PathResult.cancelled := by
  intro prs
  induction prs with
  | nil => intro st h; exact SegsResult.noConfusion h
  | cons pr rest ih =>
    intro st
    simp only [runSegments]
    split
    · rename_i p st1 heq
      split
      · rename_i ps st2 heq2
        intro h
        exact SegsResult.noConfusion h
      · rename_i r st2 hno heq2
        intro h
        have hr2 : (runSegments G cm usage cap false aFuel rest st1).1
            = SegsResult.stopped PathResult.cancelled := by
          rw [heq2]
          exact h
        exact ih st1 hr2
    · rename_i r st1 hno heqa
      intro h
      have hr : r = PathResult.cancelled := SegsResult.stopped.inj h
      subst hr
      exact aStar_not_cancelled G cm usage cap aFuel st pr.1 pr.2 (by rw [heqa])

/-- Without a token mismatch `buildLoop` never returns `cancelled`. -/
theorem buildLoop_not_cancelled (G : SearchGrid) (cm : CostModel) (usage : ℕ → ℕ)
    (cap : ℕ) (aFuel : ℕ) (st : AState) (startPool endPool : List ℕ)
    (rand : ℕ → ℚ) (rk : ℕ) :
    (buildLoop G cm usage cap false aFuel st startPool endPool rand rk).1
      ≠ PathResult.cancelled := by
  simp only [buildLoop]
  split
  · rename_i pa pb hA hB
    split
    · intro h
      exact PathResult.noConfusion h
    · rename_i r st4 heqrs
      intro h
      have hr : r = PathResult.cancelled := h
      subst hr
      have h2 : (runSegments G cm usage cap false aFuel
          [(pa.getD 0 0, pa.getD 1 0), (pa.getD 1 0, pb.getD 0 0),
           (pb.getD 0 0, pb.getD 1 0), (pb.getD 1 0, pa.getD 0 0)] st).1
          = SegsResult.stopped PathResult.cancelled := by
        rw [heqrs]
      exact runSegments_not_cancelled G cm usage cap aFuel _ st h2
  · intro h
    exact PathResult.noConfusion h

/-- Termination and stop-condition characterization of the placement loop:
with fuel exceeding the remaining budget the loop never exhausts its fuel,
a `reachedMaxPaths` exit really has `maxPaths ≤ placed`, an `outOfAttempts`
exit really exhausted the failure budget, and a cancellation exit can only
happen under a token mismatch. -/
theorem placementLoop_stop (G : SearchGrid) (cm : CostModel) (cap : ℕ) (mismatch : Bool)
    (aFuel : ℕ) (rand : ℕ → ℚ) (maxPaths maxTries : ℕ)
    (startPool endPool : List ℕ) (useLoopPaths useSides : Bool) :
    ∀ (fuel : ℕ) (s : LoopState) (res : LoopState × LoopExit),
      placementLoop G cm cap mismatch aFuel rand maxPaths maxTries
          startPool endPool useLoopPaths useSides fuel s = res →
      (maxPaths - s.placed) + (max 1 (maxPaths * maxTries) - s.attempts) < fuel →
      res.2 ≠ LoopExit.fuelOut
        ∧ (res.2 = LoopExit.reachedMaxPaths → maxPaths ≤ res.1.placed)
        ∧ (res.2 = LoopExit.outOfAttempts →
            max 1 (maxPaths * maxTries) ≤ res.1.attempts)
        ∧ (res.2 = LoopExit.cancelledExit → mismatch = true) := by
  intro fuel
  induction fuel with
  | zero => intro s res heq hlt; exact absurd hlt (Nat.not_lt_zero _)
  | succ fuel ih =>
    intro s res heq hlt
    subst heq
    simp only [placementLoop]
    by_cases hP : maxPaths ≤ s.placed
    · rw [if_pos hP]
      exact ⟨fun h => LoopExit.noConfusion h, fun _ => hP,
             fun h => LoopExit.noConfusion h, fun h => LoopExit.noConfusion h⟩
    rw [if_neg hP]
    by_cases hM : mismatch = true
    · rw [if_pos hM]
      exact ⟨fun h => LoopExit.noConfusion h, fun h => LoopExit.noConfusion h,
             fun h => LoopExit.noConfusion h, fun _ => hM⟩
    rw [if_neg hM]
    by_cases hA : max 1 (maxPaths * maxTries) ≤ s.attempts
    · rw [if_pos hA]
      exact ⟨fun h => LoopExit.noConfusion h, fun h => LoopExit.noConfusion h,
             fun _ => hA, fun h => LoopExit.noConfusion h⟩
    rw [if_neg hA]
    by_cases hL : useLoopPaths = true
    · rw [if_pos hL]
      split
      · rename_i st2 rk2 heqB
        refine ⟨fun h => LoopExit.noConfusion h, fun h => LoopExit.noConfusion h,
                fun h => LoopExit.noConfusion h, fun _ => ?_⟩
        exfalso
        have hmf : mismatch = false := by simpa using hM
        rw [hmf] at heqB
        exact buildLoop_not_cancelled G cm s.usage cap aFuel s.st startPool endPool
          rand s.rk (by rw [heqB])
      · rename_i p st2 rk2 heqB
        have hm2 : (maxPaths - (s.placed + 1))
            + (max 1 (maxPaths * maxTries) - s.attempts) < fuel := by omega
        exact ih _ _ rfl hm2
      · rename_i st2 rk2 heqB
        have hm2 : (maxPaths - s.placed)
            + (max 1 (maxPaths * maxTries) - (s.attempts + 1)) < fuel := by omega
        exact ih _ _ rfl hm2
    · rw [if_neg hL]
      split
      · rename_i s1 heqPP
        exact ⟨fun h => LoopExit.noConfusion h, fun h => LoopExit.noConfusion h,
               fun h => LoopExit.noConfusion h, fun h => LoopExit.noConfusion h⟩
      · rename_i pr s1 heqPP
        have h2 : (pairPick startPool endPool useSides cap maxTries rand s).2 = s1 :=
          congrArg Prod.snd heqPP
        have hpf := pairPick_fields startPool endPool useSides cap maxTries rand s
        rw [h2] at hpf
        have hplaced : s1.placed = s.placed := hpf.2.2.2.1
        have hatt : s1.attempts = s.attempts := hpf.2.2.2.2
        split
        · rename_i st2 heqA
          refine ⟨fun h => LoopExit.noConfusion h, fun h => LoopExit.noConfusion h,
                  fun h => LoopExit.noConfusion h, fun _ => ?_⟩
          exfalso
          have hmf : mismatch = false := by simpa using hM
          rw [hmf] at heqA
          exact aStar_not_cancelled G cm s1.usage cap aFuel s1.st pr.1 pr.2 (by rw [heqA])
        · rename_i p st2 heqA
          have hm2 : (maxPaths - (s1.placed + 1))
              + (max 1 (maxPaths * maxTries) - s1.attempts) < fuel := by
            rw [hplaced, hatt]; omega
          exact ih _ _ rfl hm2
        · rename_i st2 heqA
          have hm2 : (maxPaths - s1.placed)
              + (max 1 (maxPaths * maxTries) - (s1.attempts + 1)) < fuel := by
            rw [hplaced, hatt]; omega
          exact ih _ _ rfl hm2

/-- C7 counterexample: a single-path-mode build stops with a pair-selection
failure: the exit is `noPair` while only 1 of maxPaths = 2 paths is placed,
the failure counter is 0 out of a budget of max 1 (2*1) = 2, and there is
no cancellation — a fourth stop condition the claim does not list.
(Moreover the budget counts only failed attempts, not successful ones.) -/
theorem c7_counterexample :
    (placementLoop witGrid witCm 1 false 64 (fun _ => 0) 2 1 [0, 3] [0, 3]
        false false 8 LoopState.initial).2 = LoopExit.noPair
      ∧ (placementLoop witGrid witCm 1 false 64 (fun _ => 0) 2 1 [0, 3] [0, 3]
        false false 8 LoopState.initial).1.placed = 1
      ∧ (placementLoop witGrid witCm 1 false 64 (fun _ => 0) 2 1 [0, 3] [0, 3]
        false false 8 LoopState.initial).1.attempts = 0 :=
  ⟨by decide, by decide, by decide⟩

/-- C7 (amended): the placement loop terminates (with fuel above
maxPaths + max 1 (maxPaths * maxTries) it never runs out), and it stops
exactly when one of FOUR conditions first holds: placed reached maxPaths;
the failed-attempt counter (failures only — successes are not counted)
reached max 1 (maxPaths * maxTries); the captured token mismatches (the
only source of a cancelled exit); or pair selection fails in single-path
mode (`noPair`), which the original claim omits. -/
theorem c7_loop_termination_and_stop_conditions
    (G : SearchGrid) (cm : CostModel) (cap : ℕ) (mismatch : Bool) (aFuel : ℕ)
    (rand : ℕ → ℚ) (maxPaths maxTries : ℕ) (startPool endPool : List ℕ)
    (useLoopPaths useSides : Bool) (fuel : ℕ) (res : LoopState × LoopExit)
    (heq : placementLoop G cm cap mismatch aFuel rand maxPaths maxTries
        startPool endPool useLoopPaths useSides fuel LoopState.initial = res)
    (hfuel : maxPaths + max 1 (maxPaths * maxTries) < fuel) :
    res.2 ≠ LoopExit.fuelOut
      ∧ (res.2 = LoopExit.reachedMaxPaths → maxPaths ≤ res.1.placed)
      ∧ (res.2 = LoopExit.outOfAttempts →
          max 1 (maxPaths * maxTries) ≤ res.1.attempts)
      ∧ (res.2 = LoopExit.cancelledExit → mismatch = true) :=
  placementLoop_stop G cm cap mismatch aFuel rand maxPaths maxTries startPool endPool
    useLoopPaths useSides fuel LoopState.initial res heq
    (by simpa [LoopState.initial] using hfuel)

theorem c7_witness :
    ((placementLoop witGrid witCm 1 false 64 (fun _ => 0) 2 1 [0, 3] [0, 3]
        false false 8 LoopState.initial = placementLoop witGrid witCm 1 false 64
        (fun _ => 0) 2 1 [0, 3] [0, 3] false false 8 LoopState.initial)
      ∧ 2 + max 1 (2 * 1) < 8)
      ∧ (placementLoop witGrid witCm 1 false 64 (fun _ => 0) 2 1 [0, 3] [0, 3]
          false false 8 LoopState.initial).2 ≠ LoopExit.fuelOut :=
  ⟨⟨rfl, by decide⟩,
   (c7_loop_termination_and_stop_conditions witGrid witCm 1 false 64 (fun _ => 0) 2 1
     [0, 3] [0, 3] false false 8 _ rfl (by decide)).1⟩

/-! ## The worker message layer (source lines 4037-4052)

The worker is single-threaded: `ctx.onmessage` runs to completion for one
inbound message before the next is dequeued, so a build's outputs form one
contiguous block and `activeToken` only changes between handler runs.  The
body of `buildPaths` is abstracted by a function returning the messages it
posts and, optionally, the text of a thrown exception (`Option String`
models the `try/catch`); the handler itself — token bump, capture, catch,
and `error` reporting — is embedded concretely. -/

/-- Outbound worker messages, each carrying the request id it is keyed to
(`path`, `done`, `debug` and `error` all post an `id` field). -/
inductive OutMsg where
  | path (id : ℕ) (p : List ℕ)
  | done (id : ℕ) (placed : ℕ)
  | debug (id : ℕ)
  | error (id : ℕ) (text : String)
deriving DecidableEq

def OutMsg.idOf : OutMsg → ℕ
  | OutMsg.path i _ => i
  | OutMsg.done i _ => i
  | OutMsg.debug i => i
  | OutMsg.error i _ => i

/-- Inbound worker messages: `cancel`, or a `build` request with its id and
an abstract configuration payload. -/
inductive InMsg where
  | cancel
  | build (id : ℕ) (cfg : ℕ)
deriving DecidableEq

/-- The abstracted body of `buildPaths`: for a request id and configuration
it yields the list of messages posted before returning or throwing, and
`some text` iff it throws an exception with that message text. -/
def BuildFn : Type := ℕ → ℕ → List OutMsg × Option String

structure WorkerState where
  activeToken : ℕ
deriving DecidableEq

/-- One `ctx.onmessage` run (source lines 4037-4052): `cancel` bumps the
global token and posts nothing; a `build` message bumps the token, captures
it, runs `buildPaths` inside `try`, and on a throw posts a single `error`
message with the request id and the exception text. -/
def onMessage (impl : BuildFn) (st : WorkerState) : InMsg → WorkerState × List OutMsg
  | InMsg.cancel => ({ activeToken := st.activeToken + 1 }, [])
  | InMsg.build i _cfg =>
    match impl i _cfg with
    | (msgs, none) => ({ activeToken := st.activeToken + 1 }, msgs)
    | (msgs, some text) =>
      ({ activeToken := st.activeToken + 1 }, msgs ++ [OutMsg.error i text])

/-- Sequential processing of an inbound message queue, collecting each
handler run's output block. -/
def runWorker (impl : BuildFn) : WorkerState → List InMsg → List (List OutMsg)
  | _, [] => []
  | st, m :: rest =>
    (onMessage impl st m).2 :: runWorker impl (onMessage impl st m).1 rest

/-- Every handler run bumps the token by exactly one, throw or not. -/
theorem onMessage_token (impl : BuildFn) (st : WorkerState) (m : InMsg) :
    (onMessage impl st m).1 = { activeToken := st.activeToken + 1 } := by
  cases m with
  | cancel => rfl
  | build i cfg =>
    simp only [onMessage]
    split
    · rfl
    · rfl

theorem runWorker_length (impl : BuildFn) :
    ∀ (xs : List InMsg) (st : WorkerState), (runWorker impl st xs).length = xs.length := by
  intro xs
  induction xs with
  | nil => intro st; rfl
  | cons m rest ih =>
    intro st
    simp only [runWorker, List.length_cons, ih]

theorem runWorker_append (impl : BuildFn) :
    ∀ (xs ys : List InMsg) (st : WorkerState),
      runWorker impl st (xs ++ ys)
        = runWorker impl st xs
          ++ runWorker impl { activeToken := st.activeToken + xs.length } ys := by
  intro xs
  induction xs with
  | nil =>
    intro ys st
    rfl
  | cons m xs ih =>
    intro ys st
    simp only [List.cons_append, runWorker, List.length_cons, List.append_eq]
    rw [ih, onMessage_token]
    have h : st.activeToken + 1 + xs.length = st.activeToken + (xs.length + 1) := by omega
    rw [h]

theorem drop_len_cons {α : Type} (A B : List α) (o : α) :
    (A ++ o :: B).drop (A.length + 1) = B := by
  rw [← List.drop_drop, List.drop_left, List.drop_one, List.tail_cons]

/-- The output blocks after a given message's own block are exactly a fresh
run over the remaining queue. -/
theorem runWorker_drop_suffix (impl : BuildFn) (st0 : WorkerState)
    (pre post : List InMsg) (b : InMsg) :
    (runWorker impl st0 (pre ++ b :: post)).drop (pre.length + 1)
      = runWorker impl { activeToken := st0.activeToken + pre.length + 1 } post := by
  rw [runWorker_append]
  have h2 : runWorker impl { activeToken := st0.activeToken + pre.length } (b :: post)
      = (onMessage impl { activeToken := st0.activeToken + pre.length } b).2
        :: runWorker impl { activeToken := st0.activeToken + pre.length + 1 } post := by
    rw [show runWorker impl { activeToken := st0.activeToken + pre.length } (b :: post)
        = (onMessage impl { activeToken := st0.activeToken + pre.length } b).2
          :: runWorker impl
            (onMessage impl { activeToken := st0.activeToken + pre.length } b).1 post
      from rfl, onMessage_token]
  rw [h2, ← runWorker_length impl pre st0]
  exact drop_len_cons _ _ _

/-- If the implementation keys every posted message to its request id, a run
over a queue containing no build with id `i` posts nothing with id `i`. -/
theorem runWorker_fresh_ids (impl : BuildFn)
    (hid : ∀ (j cfg : ℕ), ∀ m ∈ (impl j cfg).1, OutMsg.idOf m = j) (i : ℕ) :
    ∀ (post : List InMsg) (st : WorkerState),
      (∀ (j c : ℕ), InMsg.build j c ∈ post → j ≠ i) →
      ∀ m ∈ (runWorker impl st post).flatten, OutMsg.idOf m ≠ i := by
  intro post
  induction post with
  | nil => intro st h m hm; simp [runWorker] at hm
  | cons a rest ih =>
    intro st h m hm
    simp only [runWorker, List.flatten_cons] at hm
    rcases List.mem_append.mp hm with h1 | h1
    · cases a with
      | cancel => simp [onMessage] at h1
      | build j c =>
        have hj : j ≠ i := h j c (List.mem_cons_self _ _)
        rcases himp : impl j c with ⟨msgs, o⟩
        cases o with
        | none =>
          have h2 : m ∈ msgs := by simpa [onMessage, himp] using h1
          have h3 : OutMsg.idOf m = j := hid j c m (by rw [himp]; exact h2)
          rw [h3]
          exact hj
        | some text =>
          have h2 : m ∈ msgs ++ [OutMsg.error j text] := by
            simpa [onMessage, himp] using h1
          rcases List.mem_append.mp h2 with h3 | h3
          · have h4 : OutMsg.idOf m = j := hid j c m (by rw [himp]; exact h3)
            rw [h4]
            exact hj
          · have h4 : m = OutMsg.error j text := by simpa using h3
            rw [h4]
            exact hj
    · exact ih _ (fun j c hm2 => h j c (List.mem_cons_of_mem _ hm2)) m h1

/-- C8: for every inbound build message, if the build throws then the
exception is caught at the handler level: the worker's output for that
message is the build's messages followed by exactly one `error` message
carrying the request id and the exception text, and the worker goes on to
process the remaining queue exactly as a fresh run from the successor
token (the exception never propagates out of the handler). -/
theorem c8_exception_caught_and_reported
    (impl : BuildFn) (st0 : WorkerState) (pre post : List InMsg) (i cfg : ℕ)
    (msgs : List OutMsg) (text : String)
    (himpl : impl i cfg = (msgs, some text)) :
    runWorker impl st0 (pre ++ InMsg.build i cfg :: post)
      = runWorker impl st0 pre
        ++ (msgs ++ [OutMsg.error i text])
          :: runWorker impl { activeToken := st0.activeToken + pre.length + 1 } post := by
  rw [runWorker_append]
  congr 1
  show runWorker impl { activeToken := st0.activeToken + pre.length }
      (InMsg.build i cfg :: post) = _
  rw [show runWorker impl { activeToken := st0.activeToken + pre.length }
      (InMsg.build i cfg :: post)
      = (onMessage impl { activeToken := st0.activeToken + pre.length }
          (InMsg.build i cfg)).2
        :: runWorker impl (onMessage impl { activeToken := st0.activeToken + pre.length }
          (InMsg.build i cfg)).1 post from rfl, onMessage_token]
  congr 1
  simp [onMessage, himpl]

def implThrow : BuildFn := fun _ _ => ([], some "boom")

theorem c8_witness :
    (implThrow 5 0 = (([] : List OutMsg), some "boom"))
      ∧ runWorker implThrow { activeToken := 0 }
          ([] ++ InMsg.build 5 0 :: [InMsg.cancel])
        = runWorker implThrow { activeToken := 0 } []
          ++ (([] : List OutMsg) ++ [OutMsg.error 5 "boom"])
            :: runWorker implThrow
              { activeToken := ({ activeToken := 0 } : WorkerState).activeToken
                  + List.length ([] : List InMsg) + 1 } [InMsg.cancel] :=
  ⟨rfl, c8_exception_caught_and_reported implThrow { activeToken := 0 } [] [InMsg.cancel]
     5 0 [] "boom" rfl⟩

/-- C4: once a build is superseded — the worker has moved on to any later
inbound message, which is when the global token first differs from the
build's captured token — no output block processed from that point on
contains any message (path, done, debug or error) keyed to the superseded
build's id, provided the implementation keys its messages to the request id
and no later build reuses that id. -/
theorem c4_no_output_for_superseded_build (impl : BuildFn)
    (hid : ∀ (j cfg : ℕ), ∀ m ∈ (impl j cfg).1, OutMsg.idOf m = j)
    (st0 : WorkerState) (pre post : List InMsg) (i cfg : ℕ)
    (hfresh : ∀ (j c : ℕ), InMsg.build j c ∈ post → j ≠ i) :
    ∀ m ∈ ((runWorker impl st0 (pre ++ InMsg.build i cfg :: post)).drop
        (pre.length + 1)).flatten, OutMsg.idOf m ≠ i := by
  rw [runWorker_drop_suffix]
  exact runWorker_fresh_ids impl hid i post _ hfresh

def implKeyed : BuildFn := fun j _ => ([OutMsg.debug j, OutMsg.done j 1], none)

theorem c4_witness :
    (OutMsg.done 2 1) ∈ ((runWorker implKeyed { activeToken := 0 }
        ([] ++ InMsg.build 1 0 :: [InMsg.build 2 0])).drop
          (List.length ([] : List InMsg) + 1)).flatten
      ∧ OutMsg.idOf (OutMsg.done 2 1) ≠ 1 :=
  ⟨by decide,
   c4_no_output_for_superseded_build implKeyed
     (by
       intro j c m hm
       simp only [implKeyed, List.mem_cons, List.mem_singleton] at hm
       rcases hm with h | h
       · rw [h]; rfl
       · rcases h with h | h
         · rw [h]; rfl
         · simp at h)
     { activeToken := 0 } [] [InMsg.build 2 0] 1 0
     (by
       intro j c hj
       simp only [List.mem_singleton, InMsg.build.injEq] at hj
       omega)
     (OutMsg.done 2 1) (by decide)⟩
